import Mathlib

/-
  Verification of the string-set-to-regular-expression compiler `toRegExp`
  (src/to-regex.js) against its natural-language specification.

  JavaScript strings are sequences of UTF-16 code units; we model them as
  `List Nat` (each entry a code unit).  The synthesized pattern is again such
  a list.  Every definition below is a direct shallow embedding of the
  corresponding construct in src/to-regex.js; line numbers in comments refer
  to that file.
-/

namespace RukoRegex

/-- A JavaScript string: its sequence of UTF-16 code units. -/
abbrev JStr := List Nat

/-- Convert a Lean string to UTF-16 code units (surrogate-pair encoding for
    non-BMP code points), for writing literals conveniently. -/
def jstr (s : String) : JStr :=
  s.data.foldr
    (fun c acc =>
      if c.toNat < 0x10000 then c.toNat :: acc
      else
        (0xD800 + (c.toNat - 0x10000) / 0x400) ::
        (0xDC00 + (c.toNat - 0x10000) % 0x400) :: acc)
    []

/-- Is a code unit a high (leading) surrogate, 0xD800-0xDBFF. -/
def isHighSurr (u : Nat) : Bool := 0xD800 ≤ u && u ≤ 0xDBFF

/-- Is a code unit a low (trailing) surrogate, 0xDC00-0xDFFF. -/
def isLowSurr (u : Nat) : Bool := 0xDC00 ≤ u && u ≤ 0xDFFF

/-- Embeds `String.prototype.slice(a, b)` with non-negative arguments. -/
def jsSlice (s : JStr) (a b : Nat) : JStr := (s.take b).drop a

/-- Embeds `String.prototype.repeat`. -/
def jsRepeat (s : JStr) (n : Nat) : JStr := (List.replicate n s).flatten

/-- JS `Math.round(num/den)` for non-negative rationals (round half up). -/
def jsRoundDiv (num den : Nat) : Nat := (2 * num + den) / (2 * den)

/-- One uppercase hexadecimal digit. -/
def hexDigit (n : Nat) : Nat := if n < 10 then 48 + n else 55 + n

/-- Embeds `code.toString(16).toUpperCase()` (minimal number of digits). -/
def hexU (n : Nat) : JStr :=
  (Nat.toDigits 16 n).map (fun c => if 97 ≤ c.toNat then c.toNat - 32 else c.toNat)

/-- Embeds `String.prototype.padStart(n, "0")`. -/
def padZero (n : Nat) (s : JStr) : JStr := List.replicate (n - s.length) 48 ++ s

/-- Decimal rendering of a number. -/
def decU (n : Nat) : JStr := (Nat.toDigits 10 n).map Char.toNat

/-- The code point starting at the front of a string (`codePointAt(0)`);
    0 for the empty string (unreachable in the compiler). -/
def codePointAt0 (s : JStr) : Nat :=
  match s with
  | [] => 0
  | [u] => u
  | u :: l :: _ =>
    if isHighSurr u && isLowSurr l then
      0x10000 + (u - 0xD800) * 0x400 + (l - 0xDC00)
    else u

/-- Embeds `String.fromCodePoint` as UTF-16 units.  (For arguments above 0x10FFFF
    JavaScript throws a RangeError; that range is unreachable from the
    compiler's own escaped output, and we return [] there.) -/
def fromCodePoint (n : Nat) : JStr :=
  if n < 0x10000 then [n]
  else if n ≤ 0x10FFFF then
    [0xD800 + (n - 0x10000) / 0x400, 0xDC00 + (n - 0x10000) % 0x400]
  else []

/-- The code-point decomposition `[...s]` of a string (string spread). -/
def codePoints : JStr → List JStr
  | [] => []
  | [u] => [[u]]
  | u :: l :: rest =>
    if isHighSurr u && isLowSurr l then [u, l] :: codePoints rest
    else [u] :: codePoints (l :: rest)

/-- Spread head `[...s][0]` (empty for the empty string). -/
def firstCodePoint (s : JStr) : JStr :=
  match s with
  | [] => []
  | [u] => [u]
  | u :: l :: _ => if isHighSurr u && isLowSurr l then [u, l] else [u]

/-- Spread last `[...s][cp.length - 1]`: the last code point of a string. -/
def lastCodePoint (s : JStr) : JStr := (codePoints s).getLastD []

/-- Minimum of a list of numbers (`Math.min(...)`, inputs nonempty). -/
def listMin : List Nat → Nat
  | [] => 0
  | x :: xs => xs.foldl Nat.min x

/-- JS string comparison `a < b` (lexicographic on UTF-16 code units). -/
def jsLtStr : JStr → JStr → Bool
  | _, [] => false
  | [], _ :: _ => true
  | a :: as, b :: bs => a < b || (a == b && jsLtStr as bs)

/-- Stable insertion of `x` after all kept elements `y` with `keep y x`. -/
def stableInsert (keep : α → α → Bool) (x : α) : List α → List α
  | [] => [x]
  | y :: ys => if keep y x then y :: stableInsert keep x ys else x :: y :: ys

/-- Stable sort: `keep y x` means an earlier `y` stays in front of a later
    `x` (so `keep` is the non-strict "comparator ≤ 0" of `Array.sort`). -/
def stableSort (keep : α → α → Bool) (l : List α) : List α :=
  l.foldl (fun acc x => stableInsert keep x acc) []

/-- Walk of `[...new Set(l)]`: keep an element when it has not been seen. -/
def jsDedupAcc [BEq α] (seen : List α) : List α → List α
  | [] => []
  | x :: xs =>
    if seen.contains x then jsDedupAcc seen xs
    else x :: jsDedupAcc (seen ++ [x]) xs

/-- Embeds `[...new Set(l)]`: deduplication keeping first occurrences. -/
def jsDedup [BEq α] (l : List α) : List α := jsDedupAcc [] l

/-- Recursion of JS `gcd(a, b) = b == 0 ? a : gcd(b, a % b)` (line 287),
    peeled along a counter that dominates the second argument (the counter
    never runs out: the second argument strictly decreases). -/
def jsGcdAux : Nat → Nat → Nat → Nat
  | 0, a, _ => a
  | fuel + 1, a, b => if b == 0 then a else jsGcdAux fuel b (a % b)

/-- JS `gcd(a, b)` as used by the repetition fold. -/
def jsGcd (a b : Nat) : Nat := jsGcdAux (b + 1) a b

/-! ## Escaping layer (to-regex.js lines 39-91) -/

/-- The metacharacters escaped by `escapeRegExp` (line 45):
    `. * + ? ^ $ { } ( ) | [ ] \ /`. -/
def escRESpecials : List Nat := [46, 42, 43, 63, 94, 36, 123, 125, 40, 41, 124, 91, 93, 92, 47]

/-- The characters escaped by `escapeCharClass` (line 71): `\ [ ] ^ -`. -/
def escCCSpecials : List Nat := [92, 91, 93, 94, 45]

/-- First replace of both escapers: prefix every special with a backslash. -/
def escMetaPass (specials : List Nat) (s : JStr) : JStr :=
  s.flatMap (fun u => if u ∈ specials then [92, u] else [u])

/-- Second replace (lines 46 and 72): `/\\[ftnrv]/g, m => "\\" + m[1]` — a
    left-to-right scan for a literal backslash followed by one of the letters
    f t n r v, replacing the pair with a backslash and the same letter (the
    replacement text equals the matched text, so this pass is an identity;
    it never sees the actual control characters, which are single units). -/
def preserveEscPass : JStr → JStr
  | [] => []
  | [u] => [u]
  | 92 :: c :: rest =>
    if c ∈ [102, 116, 110, 114, 118] then 92 :: c :: preserveEscPass rest
    else 92 :: preserveEscPass (c :: rest)
  | u :: c :: rest => u :: preserveEscPass (c :: rest)

/-- Third replace (lines 47-50): code units in 0x00-0x1F or 0x7F-0xFF become
    `\xNN` (two uppercase hex digits, zero-padded). -/
def hexEscPass (s : JStr) : JStr :=
  s.flatMap (fun u =>
    if u ≤ 0x1F || (0x7F ≤ u && u ≤ 0xFF) then [92, 120] ++ padZero 2 (hexU u)
    else [u])

/-- Rendering of a surrogate pair by the fourth replace: `\u{...}` in
    Unicode mode, two `\uNNNN` escapes otherwise (lines 52-60). -/
def pairEsc (isU : Bool) (hi lo : Nat) : JStr :=
  if isU then
    [92, 117, 123] ++ hexU (0x10000 + (hi - 0xD800) * 0x400 + (lo - 0xDC00)) ++ [125]
  else [92, 117] ++ padZero 4 (hexU hi) ++ [92, 117] ++ padZero 4 (hexU lo)

/-- A single unit under the fourth replace: `\uNNNN` when in 0x0100-0xFFFF,
    otherwise unchanged (lines 62-63). -/
def uniOne (u : Nat) : JStr :=
  if 0x100 ≤ u && u ≤ 0xFFFF then [92, 117] ++ padZero 4 (hexU u) else [u]

/-- Fourth replace (lines 51-64): scan matching a full surrogate pair first,
    else a single unit in 0x0100-0xFFFF. -/
def uniEscPass (isU : Bool) : JStr → JStr
  | [] => []
  | [u] => uniOne u
  | u :: l :: rest =>
    if isHighSurr u && isLowSurr l then pairEsc isU u l ++ uniEscPass isU rest
    else uniOne u ++ uniEscPass isU (l :: rest)

/-- Embeds `escapeRegExp` (lines 42-65): the four replaces in sequence. -/
def escapeRegExp (s : JStr) (flags : JStr) : JStr :=
  uniEscPass (flags.contains 117)
    (hexEscPass (preserveEscPass (escMetaPass escRESpecials s)))

/-- Embeds `escapeCharClass` (lines 68-91): same pipeline with the class specials. -/
def escapeCharClass (s : JStr) (flags : JStr) : JStr :=
  uniEscPass (flags.contains 117)
    (hexEscPass (preserveEscPass (escMetaPass escCCSpecials s)))

/-! ## Common affixes (lines 93-112) -/

/-- Steps of the while-loop of `findCommonPrefix` (lines 98-101), peeled
    along a counter that dominates the candidate's length (dropping the last
    unit at most `pfx.length` times reaches the empty prefix, which always
    succeeds, so the counter never runs out). -/
def shrinkAux : Nat → JStr → JStr → JStr
  | 0, pfx, _ => pfx
  | n + 1, pfx, s => if pfx.isPrefixOf s then pfx else shrinkAux n pfx.dropLast s

/-- The while-loop of `findCommonPrefix`: shorten `pfx` from the end until it
    is a prefix of `s`. -/
def shrinkToPrefix (pfx s : JStr) : JStr := shrinkAux (pfx.length + 1) pfx s

/-- Embeds `findCommonPrefix` (lines 94-105). -/
def findCommonPrefix : List JStr → JStr
  | [] => []
  | s0 :: rest => rest.foldl (fun acc s => shrinkToPrefix acc s) s0

/-- Embeds `findCommonSuffix` (lines 108-112): reverse all strings, take the common
    prefix, reverse back. -/
def findCommonSuffix (l : List JStr) : JStr :=
  (findCommonPrefix (l.map List.reverse)).reverse

/-! ## Character classes (lines 114-141) -/

/-- Render one run of the range-merge loop in `makeCharClass` (lines 133-137):
    a single char, two adjacent chars, or a `start-end` range. -/
def ccRender (start stop : JStr) (flags : JStr) : JStr :=
  if start == stop then escapeCharClass start flags
  else if codePointAt0 stop == codePointAt0 start + 1 then
    escapeCharClass start flags ++ escapeCharClass stop flags
  else escapeCharClass start flags ++ [45] ++ escapeCharClass stop flags

/-- The range-merge loop of `makeCharClass` (lines 120-138): extend the
    current run while code points are consecutive. -/
def ccEmit (flags : JStr) : JStr → JStr → List JStr → JStr
  | start, stop, [] => ccRender start stop flags
  | start, stop, c :: rest =>
    if codePointAt0 c == codePointAt0 stop + 1 then ccEmit flags start c rest
    else ccRender start stop flags ++ ccEmit flags c c rest

/-- Embeds `makeCharClass` (lines 115-141): dedupe, sort by code point, merge
    consecutive code points into ranges. -/
def makeCharClass (chars : List JStr) (flags : JStr) : JStr :=
  let sorted := stableSort (fun a b => codePointAt0 a ≤ codePointAt0 b) (jsDedup chars)
  91 :: (match sorted with
         | [] => []
         | c :: rest => ccEmit flags c c rest) ++ [93]

/-! ## Cartesian-product detection (lines 143-193) -/

/-- The greedy gate of `isCartesian` for one string (lines 158-172): try to
    consume `s` with the atoms sorted longest-first, each usable once. -/
def cartGreedy (sortedAtoms : List JStr) (s : JStr) : Bool :=
  let fin := sortedAtoms.foldl
    (fun st atom =>
      match st with
      | none => none
      | some (pos, used) =>
        if atom.isPrefixOf (s.drop pos) then
          if used.contains atom then none
          else some (pos + atom.length, used ++ [atom])
        else some (pos, used))
    (some ((0 : Nat), ([] : List JStr)))
  match fin with
  | none => false
  | some (pos, _) => pos == s.length

/-- The subset generated by one bit mask (lines 176-177): concatenate the
    atoms whose bit is set, in ascending index order. -/
def cartMaskString (atoms : List JStr) (mask : Nat) : JStr :=
  (((List.range atoms.length).filter (fun i => mask.testBit i)).map
    (fun i => atoms.getD i [])).flatten

/-- Embeds `isCartesian` (lines 144-193): `some orderedAtoms` plays the role of the
    returned atom array, `none` the role of `false`. -/
def isCartesian (strings : List JStr) : Option (List JStr) :=
  if !(strings.contains []) then none
  else
    let nonEmpty := strings.filter (fun s => !s.isEmpty)
    if nonEmpty.isEmpty then none
    else
      let minLen := listMin (nonEmpty.map List.length)
      let atoms := nonEmpty.filter (fun s => s.length == minLen)
      let n := atoms.length
      if n > 20 then none
      else
        let sortedAtoms := stableSort (fun a b => b.length ≤ a.length) atoms
        if !(nonEmpty.all (cartGreedy sortedAtoms)) then none
        else
          let generated := jsDedup ((List.range (2 ^ n)).map (cartMaskString atoms))
          let uniqueStrings := jsDedup strings
          if generated.length != uniqueStrings.length then none
          else if !(generated.all (uniqueStrings.contains ·)) then none
          else
            let inputNonEmpty := strings.filter (fun s => !s.isEmpty)
            some (inputNonEmpty.foldl
              (fun ordered s =>
                if atoms.contains s && !(ordered.contains s) then ordered ++ [s]
                else ordered)
              [])

/-! ## Single-character pattern recognition (lines 195-239) -/

/-- The special set of line 200: `| . * + ? ^ $ { } ( ) [ ] \`. -/
def singleCharSpecials : List Nat := [124, 46, 42, 43, 63, 94, 36, 123, 125, 40, 41, 91, 93, 92]

/-- Is a unit an ASCII hex digit (`[\dA-Fa-f]`). -/
def isHexU (u : Nat) : Bool :=
  (48 ≤ u && u ≤ 57) || (65 ≤ u && u ≤ 70) || (97 ≤ u && u ≤ 102)

/-- Embeds `parseInt(s, 16)` for a string of hex digits. -/
def parseHex (s : JStr) : Nat :=
  s.foldl (fun acc u =>
    acc * 16 + (if u ≤ 57 then u - 48 else if u ≤ 70 then u - 55 else u - 87)) 0

/-- The test `/^\\x([\dA-Fa-f]{2})$/` with its captured value (line 203). -/
def matchBsHex2 : JStr → Option JStr
  | [92, 120, a, b] => if isHexU a && isHexU b then some [parseHex [a, b]] else none
  | _ => none

/-- The test `/^\\u([\dA-Fa-f]{4})$/` with its captured value (line 206). -/
def matchBsHex4 : JStr → Option JStr
  | [92, 117, a, b, c, d] =>
    if isHexU a && isHexU b && isHexU c && isHexU d then some [parseHex [a, b, c, d]]
    else none
  | _ => none

/-- The test `/^\\u\{([\dA-Fa-f]+)\}$/` with its decoded value (line 209). -/
def matchBsCodePoint : JStr → Option JStr
  | 92 :: 117 :: 123 :: rest =>
    if rest.getLast? == some 125 && !rest.dropLast.isEmpty && rest.dropLast.all isHexU then
      some (fromCodePoint (parseHex rest.dropLast))
    else none
  | _ => none

/-- Embeds `getSingleCharFromPattern` (lines 197-214): recognize a pattern that is
    exactly one literal character and return that character. -/
def getSingleCharFromPattern (p : JStr) : Option JStr :=
  if p.length == 0 then none
  else if p.length == 1 && !(p.any (· ∈ singleCharSpecials)) then some p
  else match matchBsHex2 p with
  | some c => some c
  | none =>
    match matchBsHex4 p with
    | some c => some c
    | none =>
      match matchBsCodePoint p with
      | some c => some c
      | none =>
        match p with
        | [92, c] => some [c]
        | _ => none

/-! ## Alternation condensation and atomicity (lines 216-341, 343-411) -/

/-- Wrap as `(?:` ++ p ++ `)`. -/
def wrapGroup (p : JStr) : JStr := [40, 63, 58] ++ p ++ [41]

/-- Wrap as `(?:` ++ p ++ `)?`. -/
def wrapOpt (p : JStr) : JStr := [40, 63, 58] ++ p ++ [41, 63]

/-- Embeds `parts.join("|")`. -/
def joinPipe (parts : List JStr) : JStr := List.intercalate [124] parts

/-- The tail of a mid-escape match: `u{[\dA-Fa-f]*`, `u[\dA-Fa-f]{0,3}` or
    `x[\dA-Fa-f]{0,1}`, anchored at the end of the string. -/
def midEscTail : JStr → Bool
  | 117 :: 123 :: h => h.all isHexU
  | 117 :: h => h.length ≤ 3 && h.all isHexU
  | 120 :: h => h.length ≤ 1 && h.all isHexU
  | _ => false

/-- Embeds `/\\(?:u\{[\dA-Fa-f]*|u[\dA-Fa-f]{0,3}|x[\dA-Fa-f]?)$/.test(p)` (lines
    227, 381, 598): does `p` end inside an incomplete escape sequence. -/
def endsMidEscape : JStr → Bool
  | [] => false
  | 92 :: rest => midEscTail rest || endsMidEscape rest
  | _ :: rest => endsMidEscape rest

/-- Embeds `condenseAlternationParts` (lines 219-239): factor a common prefix/suffix
    off alternation branches whose middles are all single literal characters,
    condensing the middles into one character class. -/
def condenseAlternationParts (parts : List JStr) (flags : JStr) : Option JStr :=
  if parts.length < 2 then none
  else
    let pfx := findCommonPrefix parts
    let sfx0 := findCommonSuffix parts
    let minLen := listMin (parts.map List.length)
    let sfx := if pfx.length + sfx0.length > minLen then
                 sfx0.drop (pfx.length + sfx0.length - minLen)
               else sfx0
    if endsMidEscape pfx then none
    else
      let middles := parts.map (fun p =>
        if sfx.length > 0 then jsSlice p pfx.length (p.length - sfx.length)
        else p.drop pfx.length)
      if (jsDedup middles).length < 2 then none
      else
        match middles.mapM getSingleCharFromPattern with
        | none => none
        | some chars => some (pfx ++ makeCharClass chars flags ++ sfx)

/-- The specials of the first `isAtomic` check (line 310):
    `| . * ? + ^ $ ( ) { } [ ] \`. -/
def atomicSpecials : List Nat := [124, 46, 42, 63, 43, 94, 36, 40, 41, 123, 125, 91, 93, 92]

/-- The balanced-group scan of `isAtomic` (lines 322-339): walk the pattern
    skipping escaped characters; when the parenthesis depth first returns to
    zero the remainder must be empty or a single `?`. -/
def parenScan : JStr → Int → Bool
  | [], _ => false
  | [92], _ => false
  | 92 :: _ :: rest, d => parenScan rest d
  | 40 :: rest, d => parenScan rest (d + 1)
  | 41 :: rest, d => if d - 1 == 0 then (rest == [] || rest == [63]) else parenScan rest (d - 1)
  | _ :: rest, d => parenScan rest d

/-- Embeds `isAtomic` (lines 309-341): can the fragment be quantified or
    concatenated without a wrapping group. -/
def isAtomic (p : JStr) : Bool :=
  if p.length == 1 && !(p.any (· ∈ atomicSpecials)) then true
  else if [92, 117, 123].isPrefixOf p && p.getLast? == some 125 && !(p.contains 124) then true
  else if (match p with
           | [92, 117, a, b, c, d] => isHexU a && isHexU b && isHexU c && isHexU d
           | _ => false) then true
  else if (match p with
           | [92, c] => !(c ∈ [10, 13, 0x2028, 0x2029])
           | _ => false) then true
  else if p.head? == some 91 && p.getLast? == some 93 && p.length ≥ 3
          && (p.drop 1).dropLast.all (· != 93) then true
  else if ([40, 63, 58].isPrefixOf p || [40].isPrefixOf p) then parenScan p 0
  else false

/-- Does a rest-of-branch begin with a quantifier, `/^[?*+{]/` (line 641). -/
def startsWithQuant (r : JStr) : Bool :=
  match r.head? with
  | some u => u ∈ [63, 42, 43, 123]
  | none => false

/-- Embeds `condensePartsAdvanced` (lines 347-411): group single-character branches
    into a character class, then factor a common atomic textual suffix. -/
def condensePartsAdvanced (parts : List JStr) (flags : JStr) : Option JStr :=
  if parts.length < 2 then none
  else
    let tagged := parts.map (fun p => (p, getSingleCharFromPattern p))
    let singleChars := tagged.filterMap (fun t => t.2)
    let didGroup := singleChars.length ≥ 2
    let newParts :=
      if didGroup then
        makeCharClass singleChars flags :: (tagged.filter (fun t => t.2.isNone)).map (fun t => t.1)
      else parts
    if newParts.length == 1 then some (newParts.headD [])
    else
      let textSuffix := findCommonSuffix newParts
      let sfxOk := textSuffix.length > 0 && isAtomic textSuffix
        && !(newParts.any (fun p => endsMidEscape (jsSlice p 0 (p.length - textSuffix.length))))
      let rests := newParts.map (fun p => jsSlice p 0 (p.length - textSuffix.length))
      let nonEmptyR := rests.filter (fun r => !r.isEmpty)
      if sfxOk && nonEmptyR.length < rests.length then
        let restPart :=
          if nonEmptyR.isEmpty then []
          else if nonEmptyR.length == 1 then
            let r := nonEmptyR.headD []
            if isAtomic r then r ++ [63] else wrapOpt r
          else
            let inner := (condenseAlternationParts nonEmptyR flags).getD (joinPipe nonEmptyR)
            if isAtomic inner then inner ++ [63] else wrapOpt inner
        some (restPart ++ textSuffix)
      else if sfxOk && newParts.length > 1 then
        let inner := (condenseAlternationParts rests flags).getD (joinPipe rests)
        some ((if isAtomic inner then inner else wrapGroup inner) ++ textSuffix)
      else if !didGroup then none
      else some ((condenseAlternationParts newParts flags).getD (joinPipe newParts))

/-! ## The branches of `buildPattern` (lines 242-753) -/

/-- Render `{n}`. -/
def braceCount (n : Nat) : JStr := [123] ++ decU n ++ [125]

/-- Render `{m,n}`. -/
def braceRange (m n : Nat) : JStr := [123] ++ decU m ++ [44] ++ decU n ++ [125]

/-- The single-string branch (lines 245-263): fold an exact repetition of a
    shorter substring into `sub{n}`, trying divisor lengths from 1 up. -/
def singletonFold (s : JStr) (flags : JStr) : JStr :=
  match (List.range' 1 (s.length / 2)).find?
      (fun len => s.length % len == 0 && s == jsRepeat (s.take len) (s.length / len)) with
  | some len =>
    let sub := s.take len
    let rep := s.length / len
    if len == 1 then escapeRegExp sub flags ++ braceCount rep
    else wrapGroup (escapeRegExp sub flags) ++ braceCount rep
  | none => escapeRegExp s flags

/-- The cartesian-product branch (lines 267-280), reached when the set
    contains the empty string. -/
def cartesianBranch (strings : List JStr) (flags : JStr) : Option JStr :=
  match isCartesian strings with
  | none => none
  | some atoms =>
    if atoms.length == 1 then
      let a := atoms.headD []
      let escaped := escapeRegExp a flags
      some (if a.length == 1 || isAtomic escaped then escaped ++ [63] else wrapOpt escaped)
    else some ((atoms.map (fun a => wrapOpt (escapeRegExp a flags))).flatten)

/-- The global repetition fold (lines 282-307): if every non-empty member is
    the gcd-length leading substring repeated, emit `sub{min,max}`. -/
def repetitionBranch (strings : List JStr) (flags : JStr) : Option JStr :=
  let nonEmptyStrings := strings.filter (fun s => !s.isEmpty)
  if nonEmptyStrings.isEmpty then none
  else
    let lens := nonEmptyStrings.map List.length
    let g := lens.foldl jsGcd (lens.headD 0)
    if g > 0 then
      let sub := (nonEmptyStrings.headD []).take g
      if nonEmptyStrings.all (fun s => s == jsRepeat sub (s.length / g)) then
        let reps := stableSort (fun a b => a ≤ b) (nonEmptyStrings.map (fun s => s.length / g))
        let minRep := if strings.contains [] then 0 else reps.headD 0
        let maxRep := reps.getLastD 0
        let quant :=
          if minRep == 0 && maxRep == 1 then [63]
          else if minRep == maxRep then braceCount minRep
          else braceRange minRep maxRep
        some (if g == 1 then escapeRegExp sub flags ++ quant
              else wrapGroup (escapeRegExp sub flags) ++ quant)
      else none
    else none

/-- The common affixes with the Unicode-mode surrogate trim (lines 427-441):
    a prefix ending in a high surrogate loses its last unit, a suffix
    starting with a low surrogate loses its first. -/
def trimmedAffixes (strings : List JStr) (flags : JStr) : JStr × JStr :=
  let pfx := findCommonPrefix strings
  let sfx := findCommonSuffix strings
  if flags.contains 117 then
    (
      (if pfx.length > 0 && isHighSurr (pfx.getLastD 0) then pfx.dropLast else pfx),
      (if sfx.length > 0 && isLowSurr (sfx.headD 0) then sfx.drop 1 else sfx)
    )
  else (pfx, sfx)

/-- The affixes the synthesis actually uses: `trimmedAffixes` followed by the
    overlap re-cut of lines 450-464.  When the trimmed prefix and suffix
    together exceed the shortest string, the overlap is divided between them
    proportionally (`Math.round(overlap * p/(p+s))` off the prefix, the rest
    off the suffix) with NO surrogate check, so this cut can move either
    boundary back inside a surrogate pair even in Unicode mode. -/
def usedAffixes (strings : List JStr) (flags : JStr) : JStr × JStr :=
  let pfx0 := (trimmedAffixes strings flags).1
  let sfx0 := (trimmedAffixes strings flags).2
  let minLen := listMin (strings.map List.length)
  if pfx0.length + sfx0.length > minLen then
    let overlap := pfx0.length + sfx0.length - minLen
    let pfxCut := jsRoundDiv (overlap * pfx0.length) (pfx0.length + sfx0.length)
    (pfx0.take (pfx0.length - pfxCut), sfx0.drop (overlap - pfxCut))
  else (pfx0, sfx0)

/-- The regex literal of line 489, `/^\\(\\?:[^)]+\\)\\{([^}]+)\\}$/`, parsed
    as written: a literal backslash, capture group 1 holding an optional
    backslash, a colon, non-`)` characters and a backslash, then backslash,
    `{`, capture group 2 of non-`}` characters, backslash, `}`.  The doubled
    backslashes (string-style escaping inside a regex literal) mean the match
    must START with a backslash, so it can never match a pattern that starts
    with `(?:` — see `quantRegex_needs_backslash`.  Returns capture group 1,
    which is what line 491 reads as the quantifier text. -/
def quantRegexBody (opt : JStr) (body : JStr) : Option JStr :=
  -- body must split as X ++ [92] ++ [92, 123] ++ Q ++ [92, 125] with X
  -- nonempty avoiding `)` and Q nonempty avoiding `}`; greedy backtracking
  -- takes the longest X.  The returned capture is group 1.
  ((List.range body.length).map (fun i => body.length - i)).findSome? (fun k =>
    let x := body.take k
    let after := body.drop k
    if x.isEmpty || x.any (· == 41) then none
    else match after with
    | 92 :: 92 :: 123 :: r3 =>
      let q := r3.take (r3.length - 2)
      if r3.length ≥ 3 && r3.drop (r3.length - 2) == [92, 125]
         && !q.isEmpty && q.all (· != 125) then
        some (opt ++ [58] ++ x ++ [92])
      else none
    | _ => none)

def quantRegexMatch (p : JStr) : Option JStr :=
  match p with
  | 92 :: 92 :: 58 :: body => quantRegexBody [92] body
  | 92 :: 58 :: body => quantRegexBody [] body
  | _ => none

/-- Embeds `Number(s)` for the comma-split pieces of the (unreachable) quantifier
    merge; `none` models `NaN`/`undefined`. -/
def jsToNum (s : JStr) : Option Nat :=
  if s.isEmpty then some 0
  else if s.all (fun u => 48 ≤ u && u ≤ 57) then
    some (s.foldl (fun a u => a * 10 + (u - 48)) 0)
  else none

/-- Embeds `quant.split(",")`. -/
def splitComma : JStr → List JStr
  | [] => [[]]
  | 44 :: rest => [] :: splitComma rest
  | u :: rest =>
    match splitComma rest with
    | h :: t => (u :: h) :: t
    | [] => [[u]]

/-- The merged-repetition render of lines 490-506 (unreachable, see
    `quantRegex_needs_backslash`; `none` models `NaN`, which compares unequal
    to everything, including itself). -/
def mergedRepetition (pfxEsc sfxEsc quant : JStr) : JStr :=
  let reps := (splitComma quant).map jsToNum
  let newMin := match reps.headD none with
                | some a => some (a + 1)
                | none => none
  let newMax := match reps.getD 1 none with
                | some b => if b == 0 then newMin else some (b + 1)
                | none => newMin
  let renderN : Option Nat → JStr := fun n =>
    match n with
    | some v => decU v
    | none => [78, 97, 78]
  let eqNum := match newMin, newMax with
               | some a, some b => a == b
               | _, _ => false
  let newQuant :=
    if eqNum then [123] ++ renderN newMin ++ [125]
    else [123] ++ renderN newMin ++ [44] ++ renderN newMax ++ [125]
  wrapGroup pfxEsc ++ newQuant ++ sfxEsc

/-- Embeds `buildWithSplit` (lines 472-480): strip the given affixes — keeping a
    string whole when its length equals the suffix length, because of the
    `s.length - sfx.length || undefined` fallback — recurse on the middles,
    wrap an alternation, and concatenate. -/
def buildWithSplit (recur : List JStr → JStr → Option JStr)
    (strings : List JStr) (flags pfx sfx : JStr) : Option JStr := do
  let mid := strings.map (fun s =>
    if s.length == sfx.length then s.drop pfx.length
    else jsSlice s pfx.length (s.length - sfx.length))
  let mp ← recur mid flags
  let mp := if mp.contains 124 && (!pfx.isEmpty || !sfx.isEmpty) && !isAtomic mp
            then wrapGroup mp else mp
  pure (escapeRegExp pfx flags ++ mp ++ escapeRegExp sfx flags)

/-- The start-of-string repetition heuristic for one long string (lines
    540-567); dead in practice since singletons return earlier. -/
def hugeHeuristic (strings : List JStr) (flags : JStr) : Option JStr :=
  if strings.length == 1 && (strings.headD []).length > 10 then
    let s := strings.headD []
    (List.range' 1 (s.length / 2)).findSome? (fun len =>
      let sub := s.take len
      let count := (List.range (s.length / len + 1)).foldl
        (fun acc _ => if sub.isPrefixOf (s.drop (acc * len)) then acc + 1 else acc) 0
      let pos := count * len
      if count > 3 && pos > 0 then
        some (wrapGroup (escapeRegExp sub flags) ++ braceCount count
              ++ escapeRegExp (s.drop pos) flags)
      else none)
  else none

/-! ## Grouped alternation by boundary character (lines 569-732) -/

/-- Insert a string into its group, preserving the Map's insertion order. -/
def addToGroup (c s : JStr) : List (JStr × List JStr) → List (JStr × List JStr)
  | [] => [(c, [s])]
  | (k, v) :: t => if k == c then (k, v ++ [s]) :: t else (k, v) :: addToGroup c s t

/-- Embeds `groups.get(char)`. -/
def lookupGroup (groups : List (JStr × List JStr)) (c : JStr) : List JStr :=
  match groups.find? (fun kv => kv.1 == c) with
  | some kv => kv.2
  | none => []

/-- Embeds `tryGroup` (lines 571-585): partition by a boundary character, succeeding
    only when that yields fewer groups than strings. -/
def tryGroup (strings : List JStr) (getChar : JStr → JStr) :
    Option (List (JStr × List JStr)) :=
  let groups := strings.foldl
    (fun acc s =>
      if s.isEmpty then acc
      else
        let c := getChar s
        if c.isEmpty then acc else addToGroup c s acc)
    []
  if groups.length < strings.length then some groups else none

/-- The bracket/paren depth scan over a candidate factored prefix (lines
    607-630): skip escaped characters, track character-class state and
    parenthesis depth; the prefix is safe when everything is closed. -/
def scanBalanced : JStr → Int → Bool → Bool
  | [], d, inC => d == 0 && !inC
  | [92], d, inC => d == 0 && !inC
  | 92 :: _ :: rest, d, inC => scanBalanced rest d inC
  | 91 :: rest, d, _ => scanBalanced rest d true
  | 93 :: rest, d, _ => scanBalanced rest d false
  | c :: rest, d, inC =>
    if inC then scanBalanced rest d inC
    else if c == 40 then scanBalanced rest (d + 1) inC
    else if c == 41 then scanBalanced rest (d - 1) inC
    else scanBalanced rest d inC

/-- Embeds `buildFromGroups` (lines 588-694): synthesize each partition, then factor
    a common textual prefix across the per-partition pattern strings. -/
def buildFromGroups (recur : List JStr → JStr → Option JStr)
    (groups : List (JStr × List JStr)) (order : List JStr) (flags : JStr) :
    Option JStr := do
  let parts ← order.mapM (fun c => recur (lookupGroup groups c) flags)
  let fallback :=
    (condensePartsAdvanced parts flags).getD
      ((condenseAlternationParts parts flags).getD (joinPipe parts))
  if parts.length ≥ 2 then
    let commonPfx := findCommonPrefix parts
    let midEscape := endsMidEscape commonPfx
    if commonPfx.length > 0 && commonPfx.getLast? != some 92
       && !(commonPfx.contains 124) && !midEscape then
      let validPfx := if scanBalanced commonPfx 0 false then commonPfx else []
      let validPfx :=
        if !validPfx.isEmpty
           && (parts.map (fun p => p.drop validPfx.length)).any startsWithQuant
        then [] else validPfx
      if !validPfx.isEmpty then
        let rests := parts.map (fun p => p.drop validPfx.length)
        let nonEmpty := rests.filter (fun r => !r.isEmpty)
        if nonEmpty.isEmpty then pure validPfx
        else if nonEmpty.length == rests.length then
          let restAlt := (condenseAlternationParts rests flags).getD (joinPipe rests)
          pure (validPfx ++ (if isAtomic restAlt then restAlt else wrapGroup restAlt))
        else if (rests.filter (·.isEmpty)).length > 0 && nonEmpty.length == 1 then
          let r := nonEmpty.headD []
          pure (validPfx ++ (if isAtomic r then r ++ [63] else wrapOpt r))
        else
          match condenseAlternationParts nonEmpty flags with
          | some condensed =>
            pure (validPfx ++ (if isAtomic condensed then condensed ++ [63]
                               else wrapOpt condensed))
          | none =>
            let restAlt := joinPipe rests
            pure (validPfx ++ (if isAtomic restAlt then restAlt else wrapGroup restAlt))
      else pure fallback
    else pure fallback
  else pure fallback

/-- The group-selection logic (lines 696-731): compute first- and
    last-character groupings, prefer the one with fewer groups (ties go to
    the shorter rendering); last-character partitions are re-ordered by
    descending size first. -/
def groupedAlternation (recur : List JStr → JStr → Option JStr)
    (strings : List JStr) (flags : JStr) : Option (Option JStr) :=
  let firstG := tryGroup strings firstCodePoint
  let lastG := tryGroup strings lastCodePoint
  match firstG, lastG with
  | none, none => some none
  | _, _ =>
    let firstRes : Option (Option JStr) :=
      match firstG with
      | some g => (buildFromGroups recur g (g.map (·.1)) flags).map some
      | none => some none
    let lastRes : Option (Option JStr) :=
      match lastG with
      | some g =>
        let lastOrder := stableSort
          (fun a b => (lookupGroup g b).length ≤ (lookupGroup g a).length)
          (g.map (·.1))
        (buildFromGroups recur g lastOrder flags).map some
      | none => some none
    match firstRes, lastRes with
    | none, _ => none
    | _, none => none
    | some fr, some lr =>
      match fr, lr with
      | some f, some l =>
        let firstGroups := (firstG.getD []).length
        let lastGroups := (lastG.getD []).length
        some (some (if lastGroups < firstGroups
                       || (lastGroups == firstGroups && l.length < f.length)
                    then l else f))
      | some f, none => some (some f)
      | none, some l => some (some l)
      | none, none => some none

/-! ## The main synthesizer `buildPattern` (lines 242-753) -/

/-- The common prefix/suffix factoring path (lines 427-537), entered when the
    set has at least two members and no empty string. -/
def affixPath (recur : List JStr → JStr → Option JStr)
    (strings : List JStr) (flags : JStr) : Option (Option JStr) :=
  let (pfx0, sfx0) := trimmedAffixes strings flags
  let minLen := listMin (strings.map List.length)
  let overlapped := pfx0.length + sfx0.length > minLen
  let overlap := pfx0.length + sfx0.length - minLen
  let pfx := (usedAffixes strings flags).1
  let sfx := (usedAffixes strings flags).2
  let middle := strings.map (fun s => jsSlice s pfx.length (s.length - sfx.length))
  if !pfx.isEmpty || !sfx.isEmpty then
    (do
      let middlePattern ← recur middle flags
      -- lines 484-507: check whether the middle is a repetition of the prefix
      match (if !pfx.isEmpty
                && (wrapGroup (escapeRegExp pfx flags)).isPrefixOf middlePattern
             then quantRegexMatch middlePattern else none) with
      | some quant =>
        pure (mergedRepetition (escapeRegExp pfx flags) (escapeRegExp sfx flags) quant)
      | none =>
        let middlePattern :=
          if middlePattern.contains 124 && (!pfx.isEmpty || !sfx.isEmpty)
             && !isAtomic middlePattern
          then wrapGroup middlePattern else middlePattern
        let proportionalResult :=
          escapeRegExp pfx flags ++ middlePattern ++ escapeRegExp sfx flags
        if overlapped then do
          let pFirst ← buildWithSplit recur strings flags
            (pfx0.take (pfx0.length - overlap)) sfx0
          let sFirst ← buildWithSplit recur strings flags pfx0 (sfx0.drop overlap)
          pure ([proportionalResult, pFirst, sFirst].foldl
            (fun a b => if List.length b < List.length a then b else a)
            proportionalResult)
        else pure proportionalResult).map some
  else some none

/-- The single-character-class step (lines 736-744). -/
def charClassStep (strings : List JStr) (flags : JStr) : Option JStr :=
  if strings.all (fun s => (codePoints s).length == 1) then
    if flags.contains 117 || !(strings.any (fun s => s.length > 1)) then
      some (makeCharClass (strings.map firstCodePoint) flags)
    else none
  else none

/-- The final alternation fallback (lines 746-752). -/
def alternationFallback (strings : List JStr) (flags : JStr) : JStr :=
  let escapedParts := strings.map (fun s => escapeRegExp s flags)
  (condensePartsAdvanced escapedParts flags).getD
    ((condenseAlternationParts escapedParts flags).getD (joinPipe escapedParts))

/-- One unfolding of `buildPattern` (lines 242-753), parameterized by the
    recursive calls; the branch order follows the source exactly. -/
def buildPatternF (recur : List JStr → JStr → Option JStr)
    (strings : List JStr) (flags : JStr) : Option JStr :=
  if strings.length == 0 then some []
  else if strings.length == 1 then some (singletonFold (strings.headD []) flags)
  else
    match (if strings.contains [] then cartesianBranch strings flags else none) with
    | some r => some r
    | none =>
      match repetitionBranch strings flags with
      | some r => some r
      | none =>
        if strings.contains [] then
          -- lines 414-425: fallback for the empty string
          let nonEmpty := strings.filter (fun s => !s.isEmpty)
          if nonEmpty.isEmpty then some (jstr "(?:)")
          else do
            let alt ← recur nonEmpty flags
            pure (if isAtomic alt then alt ++ [63] else wrapOpt alt)
        else
          match affixPath recur strings flags with
          | none => none
          | some (some r) => some r
          | some none =>
            match hugeHeuristic strings flags with
            | some r => some r
            | none =>
              let (pfx0, sfx0) := trimmedAffixes strings flags
              match (if pfx0.isEmpty && sfx0.isEmpty && strings.length > 1
                     then groupedAlternation recur strings flags
                     else some none) with
              | none => none
              | some (some r) => some r
              | some none =>
                match charClassStep strings flags with
                | some r => some r
                | none => some (alternationFallback strings flags)

/-- Embeds `buildPattern`, fuel-indexed: `none` means the recursion exceeded the
    fuel (the JavaScript function has no such bound and can in fact recurse
    forever, see `buildPattern_loops_on_lone_surrogates`). -/
def buildPattern : Nat → List JStr → JStr → Option JStr
  | 0, _, _ => none
  | fuel + 1, strings, flags => buildPatternF (buildPattern fuel) strings flags

/-! ## The public entry point `toRegExp` (lines 755-770) -/

/-- A JavaScript array element: a string, or any non-string value. -/
inductive JSElem
  | str (s : JStr)
  | nonStr
deriving DecidableEq

/-- Is the element a string. -/
def JSElem.isStr : JSElem → Bool
  | .str _ => true
  | .nonStr => false

/-- The value of a string element. -/
def JSElem.getStr : JSElem → Option JStr
  | .str s => some s
  | .nonStr => none

/-- The `input` argument of `toRegExp`: `undefined`, `null`, a non-array
    non-nullish value, or an array. -/
inductive JSInput
  | undef
  | nullV
  | notArray
  | arr (l : List JSElem)
deriving DecidableEq

/-- Fuel that depends only on the normalized string list. -/
def budget (l : List JStr) : Nat := (l.map List.length).sum + l.length + 1

/-- Embeds `toRegExp` (lines 755-770).  `Except.error` is the thrown `TypeError`;
    the `ok` payload is the source text of the returned `RegExp` (`none`
    standing for non-termination of the synthesis recursion). -/
def toRegExp (input : JSInput) (flags : JStr) : Except Unit (Option JStr) :=
  match input with
  | .undef => .ok (some (jstr "(?:)"))
  | .nullV => .ok (some (jstr "(?:)"))
  | .notArray => .error ()
  | .arr l =>
    if l.any (fun e => !e.isStr) then .error ()
    else
      let ss := l.filterMap JSElem.getStr
      if ss.length == 0 || (ss.headD []).length == 0 then .ok (some (jstr "(?:)"))
      else
        let norm := stableSort (fun a b => !(jsLtStr b a)) (jsDedup ss)
        .ok (buildPattern (budget norm) norm flags)

/-! ## Specification-side predicates -/

/-- Well-formed UTF-16: every high surrogate is immediately followed by a low
    surrogate and every low surrogate immediately preceded by a high one
    (i.e. the unit sequence encodes a sequence of code points). -/
def wfUTF16 : JStr → Bool
  | [] => true
  | [u] => !isHighSurr u && !isLowSurr u
  | u :: v :: rest =>
    if isHighSurr u then isLowSurr v && wfUTF16 rest
    else !isLowSurr u && wfUTF16 (v :: rest)

/-- Does a string end in a high surrogate. -/
def endsHighSurr (s : JStr) : Bool :=
  match s.getLast? with
  | some u => isHighSurr u
  | none => false

/-- Does a string start with a low surrogate. -/
def startsLowSurr (s : JStr) : Bool :=
  match s.head? with
  | some u => isLowSurr u
  | none => false

/-- Amended error condition for `toRegExp`: the argument is neither an array
    nor `null`/`undefined`, or it is an array containing a non-string. -/
def malformedInput : JSInput → Bool
  | .undef => false
  | .nullV => false
  | .notArray => true
  | .arr l => l.any (fun e => !e.isStr)

/-- Claimed atomic shape (spec 4.4): "any 2-character backslash escape". -/
def claimedTwoCharEscape (p : JStr) : Bool :=
  match p with
  | [92, _] => true
  | _ => false

/-- Spec shape 1: a single literal character that is not special. -/
def shapeLiteral : JStr → Bool
  | [c] => !(c ∈ atomicSpecials)
  | _ => false

/-- Spec shape 2: a `\u{...}` form (opening `\u{`, closing `}`) without
    embedded alternation. -/
def shapeBraceU : JStr → Bool
  | 92 :: 117 :: 123 :: rest => rest.getLast? == some 125 && !(rest.contains 124)
  | _ => false

/-- Spec shape 3: `\u` followed by exactly four hex digits. -/
def shapeU4 : JStr → Bool
  | 92 :: 117 :: ds => ds.length == 4 && ds.all isHexU
  | _ => false

/-- Spec shape 4, amended: a 2-character backslash escape whose escaped
    character is not a line terminator (the source tests `/^\\.$/` and `.`
    does not match `\n`, `\r`, U+2028 or U+2029). -/
def shapeEsc2 : JStr → Bool
  | [92, c] => !(c ∈ [10, 13, 0x2028, 0x2029])
  | _ => false

/-- Spec shape 5: a single bracketed character class — an opening `[`, a
    nonempty interior free of `]`, and a closing `]`. -/
def shapeClass : JStr → Bool
  | 91 :: rest => rest.getLast? == some 93 && !rest.dropLast.isEmpty
                  && rest.dropLast.all (· != 93)
  | _ => false

/-- Spec shape 6: a parenthesized group, balanced under the escape-skipping
    scan, followed by nothing or a single `?`. -/
def shapeGroup (p : JStr) : Bool :=
  match p.head? with
  | some 40 => parenScan p 0
  | _ => false

/-- The six atomic shapes of spec section 4.4 (shape 4 amended). -/
def isAtomicShapes (p : JStr) : Bool :=
  shapeLiteral p || shapeBraceU p || shapeU4 p || shapeEsc2 p || shapeClass p
    || shapeGroup p

/-! ## Helper lemmas -/

/-- With "u" flags, the set `{"\uD83Dx", "\uD83Dy"}` — two strings sharing a
    lone leading high surrogate — reaches the grouped-alternation path with a
    single group holding both strings, whose synthesis is the original call:
    the group layer returns whatever the recursive call returns. -/
theorem buildFromGroups_loneSurr (r : List JStr → JStr → Option JStr)
    (hr : r [[55357, 120], [55357, 121]] [117] = none) :
    buildFromGroups r [([55357], [[55357, 120], [55357, 121]])] [[55357]] [117] = none := by
  unfold buildFromGroups
  simp [List.mapM, List.mapM.loop, lookupGroup, hr]

/-- The grouped-alternation step diverges with the recursive call on the
    lone-surrogate pair. -/
theorem groupedAlternation_loneSurr (r : List JStr → JStr → Option JStr)
    (hr : r [[55357, 120], [55357, 121]] [117] = none) :
    groupedAlternation r [[55357, 120], [55357, 121]] [117] = none := by
  unfold groupedAlternation
  have h1 := buildFromGroups_loneSurr r hr
  simp [tryGroup, addToGroup, firstCodePoint, lastCodePoint, isHighSurr, isLowSurr, h1]

/-- One unfolding of the synthesizer on the lone-surrogate pair: the common
    prefix `\uD83D` is trimmed to empty by the Unicode-mode surrogate guard,
    the suffix is empty, so the affix path declines and the first-character
    grouping (both first code points are the bare `\uD83D`) puts both strings
    into one group — recursing on the very same argument list. -/
theorem buildPatternF_loneSurr (r : List JStr → JStr → Option JStr)
    (hr : r [[55357, 120], [55357, 121]] [117] = none) :
    buildPatternF r [[55357, 120], [55357, 121]] [117] = none := by
  have e : buildPatternF r [[55357, 120], [55357, 121]] [117]
      = (match groupedAlternation r [[55357, 120], [55357, 121]] [117] with
         | none => none
         | some (some x) => some x
         | some none => some (alternationFallback [[55357, 120], [55357, 121]] [117])) := rfl
  rw [e, groupedAlternation_loneSurr r hr]

/-- A code unit cannot be both a high and a low surrogate. -/
theorem surr_not_both (u : Nat) : isHighSurr u = true → isLowSurr u = true → False := by
  simp only [isHighSurr, isLowSurr, Bool.and_eq_true, decide_eq_true_eq]
  omega

/-- One-step unfolding of the well-formedness scan. -/
theorem wfUTF16_cons_cons (u v : Nat) (rest : JStr) :
    wfUTF16 (u :: v :: rest)
      = if isHighSurr u = true then isLowSurr v && wfUTF16 rest
        else !isLowSurr u && wfUTF16 (v :: rest) := by
  simp only [wfUTF16]

/-- In a well-formed string the unit after a high surrogate is a low one. -/
theorem wf_high_next_aux : ∀ (n : Nat) (q : JStr), q.length ≤ n →
    ∀ (x y : Nat) (t : JStr), wfUTF16 (q ++ x :: y :: t) = true →
      isHighSurr x = true → isLowSurr y = true := by
  intro n
  induction n with
  | zero =>
    intro q hq x y t hwf hx
    have : q = [] := List.length_eq_zero.mp (Nat.le_zero.mp hq)
    subst this
    rw [List.nil_append, wfUTF16_cons_cons, if_pos hx, Bool.and_eq_true] at hwf
    exact hwf.1
  | succ n ih =>
    intro q hq x y t hwf hx
    match q with
    | [] =>
      rw [List.nil_append, wfUTF16_cons_cons, if_pos hx, Bool.and_eq_true] at hwf
      exact hwf.1
    | [a] =>
      rw [List.cons_append, List.nil_append, wfUTF16_cons_cons] at hwf
      by_cases ha : isHighSurr a = true
      · rw [if_pos ha, Bool.and_eq_true] at hwf
        exact absurd hwf.1 (fun hlx => surr_not_both x hx hlx)
      · rw [if_neg ha, Bool.and_eq_true] at hwf
        exact ih [] (by simp) x y t hwf.2 hx
    | a :: b :: q'' =>
      rw [List.cons_append, List.cons_append, wfUTF16_cons_cons] at hwf
      by_cases ha : isHighSurr a = true
      · rw [if_pos ha, Bool.and_eq_true] at hwf
        exact ih q'' (by simp at hq; omega) x y t hwf.2 hx
      · rw [if_neg ha, Bool.and_eq_true] at hwf
        exact ih (b :: q'') (by simp at hq ⊢; omega) x y t
          (by rw [List.cons_append]; exact hwf.2) hx

/-- A well-formed string cannot begin with a low surrogate. -/
theorem wf_low_head_false : ∀ (y : Nat) (t : JStr),
    wfUTF16 (y :: t) = true → isLowSurr y = true → False := by
  intro y t hwf hy
  match t with
  | [] =>
    simp only [wfUTF16, Bool.and_eq_true, Bool.not_eq_true'] at hwf
    simp [hwf.2] at hy
  | v :: t' =>
    rw [wfUTF16_cons_cons, if_neg (fun hh => surr_not_both y hh hy),
      Bool.and_eq_true] at hwf
    simp [hy] at hwf

/-- In a well-formed string the unit before a low surrogate is a high one. -/
theorem wf_low_prev_aux : ∀ (n : Nat) (q : JStr), q.length ≤ n →
    ∀ (x y : Nat) (t : JStr), wfUTF16 (q ++ x :: y :: t) = true →
      isLowSurr y = true → isHighSurr x = true := by
  intro n
  induction n with
  | zero =>
    intro q hq x y t hwf hy
    have : q = [] := List.length_eq_zero.mp (Nat.le_zero.mp hq)
    subst this
    rw [List.nil_append, wfUTF16_cons_cons] at hwf
    by_cases hx : isHighSurr x = true
    · exact hx
    · rw [if_neg hx, Bool.and_eq_true] at hwf
      exact absurd hwf.2 (fun hw => wf_low_head_false y t hw hy)
  | succ n ih =>
    intro q hq x y t hwf hy
    match q with
    | [] =>
      rw [List.nil_append, wfUTF16_cons_cons] at hwf
      by_cases hx : isHighSurr x = true
      · exact hx
      · rw [if_neg hx, Bool.and_eq_true] at hwf
        exact absurd hwf.2 (fun hw => wf_low_head_false y t hw hy)
    | [a] =>
      rw [List.cons_append, List.nil_append, wfUTF16_cons_cons] at hwf
      by_cases ha : isHighSurr a = true
      · rw [if_pos ha, Bool.and_eq_true] at hwf
        exact absurd hwf.2 (fun hw => wf_low_head_false y t hw hy)
      · rw [if_neg ha, Bool.and_eq_true] at hwf
        exact ih [] (by simp) x y t hwf.2 hy
    | a :: b :: q'' =>
      rw [List.cons_append, List.cons_append, wfUTF16_cons_cons] at hwf
      by_cases ha : isHighSurr a = true
      · rw [if_pos ha, Bool.and_eq_true] at hwf
        exact ih q'' (by simp at hq; omega) x y t hwf.2 hy
      · rw [if_neg ha, Bool.and_eq_true] at hwf
        exact ih (b :: q'') (by simp at hq ⊢; omega) x y t
          (by rw [List.cons_append]; exact hwf.2) hy

/-- The shrink loop only shortens its candidate. -/
theorem shrinkAux_isPrefixOfCand : ∀ (n : Nat) (pfx s : JStr), shrinkAux n pfx s <+: pfx := by
  intro n
  induction n with
  | zero => intro pfx s; exact List.prefix_rfl
  | succ n ih =>
    intro pfx s
    simp only [shrinkAux]
    split
    · exact List.prefix_rfl
    · exact (ih pfx.dropLast s).trans ( List.dropLast_prefix pfx)

/-- The function `shrinkToPrefix` returns a prefix of its candidate. -/
theorem shrinkToPrefix_isPrefixOfCand (pfx s : JStr) : shrinkToPrefix pfx s <+: pfx :=
  shrinkAux_isPrefixOfCand (pfx.length + 1) pfx s

/-- Folding the shrink loop never grows the accumulator. -/
theorem foldl_shrink_isPrefixOfAcc : ∀ (l : List JStr) (acc : JStr),
    (l.foldl (fun a s => shrinkToPrefix a s) acc) <+: acc := by
  intro l
  induction l with
  | nil => intro acc; exact List.prefix_rfl
  | cons s l' ih =>
    intro acc
    exact (ih (shrinkToPrefix acc s)).trans (shrinkToPrefix_isPrefixOfCand acc s)

/-- The common prefix is a prefix of the first string. -/
theorem findCommonPrefix_isPrefixOfHead (s0 : JStr) (rest : List JStr) :
    findCommonPrefix (s0 :: rest) <+: s0 :=
  foldl_shrink_isPrefixOfAcc rest s0

/-- The common suffix is a suffix of the first string. -/
theorem findCommonSuffix_suffix (s0 : JStr) (rest : List JStr) :
    findCommonSuffix (s0 :: rest) <:+ s0 := by
  have h : findCommonPrefix (s0.reverse :: rest.map List.reverse) <+: s0.reverse :=
    findCommonPrefix_isPrefixOfHead _ _
  have h2 : (findCommonPrefix (s0.reverse :: rest.map List.reverse)).reverse <:+ s0 := by
    rw [← List.reverse_prefix] at *
    simpa using h
  simpa [findCommonSuffix] using h2

/-- Splitting off the last element, `getLast?` form. -/
theorem dropLast_append_of_getLast? : ∀ (l : List Nat) (x : Nat),
    l.getLast? = some x → l.dropLast ++ [x] = l := by
  intro l
  induction l with
  | nil => intro x h; exact Option.noConfusion h
  | cons a t ih =>
    intro x h
    cases t with
    | nil =>
      simp only [List.getLast?_singleton, Option.some.injEq] at h
      subst h
      rfl
    | cons b t' =>
      rw [List.getLast?_cons_cons] at h
      have := ih x h
      simp only [List.dropLast_cons₂, List.cons_append, this]

/-- Reading `endsHighSurr` off a known last element. -/
theorem endsHighSurr_eq (l : JStr) (x : Nat) (h : l.getLast? = some x) :
    endsHighSurr l = isHighSurr x := by
  unfold endsHighSurr
  rw [h]

/-- Reading `startsLowSurr` off a known first element. -/
theorem startsLowSurr_eq (l : JStr) (x : Nat) (h : l.head? = some x) :
    startsLowSurr l = isLowSurr x := by
  unfold startsLowSurr
  rw [h]

/-- Deduplication drops a tail whose elements were all seen already. -/
theorem jsDedupAcc_nil_of_subset [BEq α] [LawfulBEq α] :
    ∀ (l seen : List α), (∀ x ∈ l, x ∈ seen) → jsDedupAcc seen l = [] := by
  intro l
  induction l with
  | nil => intro seen _; rfl
  | cons x t ih =>
    intro seen h
    have hx : seen.contains x = true := by
      simp only [List.contains, List.elem_iff]
      exact h x (List.mem_cons_self x t)
    simp only [jsDedupAcc, hx, if_pos]
    exact ih seen (fun y hy => h y (List.mem_cons_of_mem x hy))

/-- Deduplication absorbs an appended block whose elements all occur in the
    seen prefix or in the first block. -/
theorem jsDedupAcc_append_absorb [BEq α] [LawfulBEq α] :
    ∀ (l1 seen l2 : List α), (∀ x ∈ l2, x ∈ seen ∨ x ∈ l1) →
      jsDedupAcc seen (l1 ++ l2) = jsDedupAcc seen l1 := by
  intro l1
  induction l1 with
  | nil =>
    intro seen l2 h
    have : ∀ x ∈ l2, x ∈ seen := by
      intro x hx
      rcases h x hx with hs | hn
      · exact hs
      · exact absurd hn (List.not_mem_nil x)
    simpa [jsDedupAcc] using jsDedupAcc_nil_of_subset l2 seen this
  | cons x t ih =>
    intro seen l2 h
    by_cases hx : seen.contains x = true
    · simp only [List.cons_append, jsDedupAcc, hx, if_pos]
      refine ih seen l2 (fun y hy => ?_)
      rcases h y hy with hs | hm
      · exact Or.inl hs
      · rcases List.mem_cons.mp hm with rfl | hm2
        · exact Or.inl (by simpa [List.contains, List.elem_iff] using hx)
        · exact Or.inr hm2
    · have hx' : seen.contains x = false := by
        cases hcx : seen.contains x
        · rfl
        · exact absurd hcx hx
      simp only [List.cons_append, jsDedupAcc, hx', Bool.false_eq_true, if_neg,
        Bool.not_eq_true]
      refine congrArg (x :: ·) (ih (seen ++ [x]) l2 (fun y hy => ?_))
      rcases h y hy with hs | hm
      · exact Or.inl (List.mem_append_left _ hs)
      · rcases List.mem_cons.mp hm with rfl | hm2
        · exact Or.inl (List.mem_append_right _ (List.mem_singleton.mpr rfl))
        · exact Or.inr hm2

/-- Deduplicating a list concatenated with itself equals deduplicating the
    list. -/
theorem jsDedup_append_self [BEq α] [LawfulBEq α] (l : List α) :
    jsDedup (l ++ l) = jsDedup l :=
  jsDedupAcc_append_absorb l [] l (fun _ hx => Or.inr hx)

/-! ## Claim theorems -/

/-- C1: Round-trip membership fails on the code.  For the accepted input
    array `["", "x"]` the compiler returns the empty pattern `(?:)` (because
    the entry guard tests only the first element, before normalization), and
    the fully anchored empty pattern matches only the empty string — so the
    member `"x"` of the input set is not matched.  This contradicts the
    code's own contract (its doc-comment promises a pattern "that matches all
    strings in the input array"). -/
theorem C1_member_x_not_matched :
    toRegExp (.arr [.str [], .str [120]]) [] = .ok (some (jstr "(?:)"))
      ∧ jstr "(?:)" ≠ [120] := by
  exact ⟨rfl, by decide⟩

/-- C2: The cartesian scenario of the spec (and of the source's own
    doc-comment, line 16) fails: `toRegExp(["", "x", "y", "xy"])` returns the
    trivial empty group `(?:)` rather than `(?:x)?(?:y)?`, because the entry
    guard (line 762) returns early whenever the FIRST element is the empty
    string — not only for an empty array or a sole empty string. -/
theorem C2_cartesian_scenario_broken :
    toRegExp (.arr [.str [], .str [120], .str [121], .str [120, 121]]) []
        = .ok (some (jstr "(?:)"))
      ∧ jstr "(?:)" ≠ jstr "(?:x)?(?:y)?" := by
  exact ⟨rfl, by decide⟩

/-- C3: Determinism under permutation fails: the arrays `["x", ""]` and
    `["", "x"]` hold the same set, but the first compiles to `x?` while the
    second hits the first-element guard (which runs BEFORE deduplication and
    sorting) and returns `(?:)`. -/
theorem C3_not_order_independent :
    toRegExp (.arr [.str [120], .str []]) [] = .ok (some (jstr "x?"))
      ∧ toRegExp (.arr [.str [], .str [120]]) [] = .ok (some (jstr "(?:)")) := by
  exact ⟨rfl, rfl⟩

/-- C4 counterexample: `toRegExp(undefined)` does not throw — the source
    (line 757) returns the empty pattern for `undefined` (and, via `==`, for
    `null`), although `undefined` is not an array; so "throws a type error if
    its argument is not an array" is false as stated. -/
theorem C4_undefined_does_not_throw :
    toRegExp .undef [] = .ok (some (jstr "(?:)"))
      ∧ toRegExp .nullV [] = .ok (some (jstr "(?:)")) := by
  exact ⟨rfl, rfl⟩

/-- C5 counterexample, in two parts.  Part (a): without the `u` flag no
    surrogate trimming happens — for the set `{😀, 😁}` (U+1F600, U+1F601,
    both surrogate pairs) the chosen common prefix is the bare high surrogate
    0xD83D, and the emitted pattern `\uD83D[\uDE00\uDE01]` splits each pair
    between the prefix and a character-class alternative.  Part (b): even in
    Unicode mode with well-formed input the split chosen during synthesis can
    bisect a pair, because the overlap re-cut of lines 453-463 has no
    surrogate check.  For the set `{a😀d, a😀z😀d}` the trimmed common prefix
    `a😀` and suffix `😀d` overlap the 4-unit shortest string by 2, and the
    proportional cut moves one unit off each side, yielding the working
    prefix `a\uD83D` (ends in a high surrogate) and suffix `\uDE00d` (begins
    with a low surrogate): both pairs are bisected, and the middle strings
    the synthesis recurses on include the ill-formed `\uDE00z\uD83D`. -/
theorem C5_chosen_split_bisects_pairs :
    ((trimmedAffixes [[0xD83D, 0xDE00], [0xD83D, 0xDE01]] []).1 = [0xD83D]
      ∧ isHighSurr 0xD83D = true
      ∧ toRegExp (.arr [.str [0xD83D, 0xDE00], .str [0xD83D, 0xDE01]]) []
          = .ok (some (jstr "\\uD83D[\\uDE00\\uDE01]")))
    ∧ ((∀ s ∈ ([[97, 0xD83D, 0xDE00, 100],
                [97, 0xD83D, 0xDE00, 122, 0xD83D, 0xDE00, 100]] : List JStr),
          wfUTF16 s = true)
      ∧ usedAffixes [[97, 0xD83D, 0xDE00, 100],
            [97, 0xD83D, 0xDE00, 122, 0xD83D, 0xDE00, 100]] [117]
          = ([97, 0xD83D], [0xDE00, 100])
      ∧ endsHighSurr
          (usedAffixes [[97, 0xD83D, 0xDE00, 100],
              [97, 0xD83D, 0xDE00, 122, 0xD83D, 0xDE00, 100]] [117]).1 = true
      ∧ startsLowSurr
          (usedAffixes [[97, 0xD83D, 0xDE00, 100],
              [97, 0xD83D, 0xDE00, 122, 0xD83D, 0xDE00, 100]] [117]).2 = true
      ∧ ([[97, 0xD83D, 0xDE00, 100],
          [97, 0xD83D, 0xDE00, 122, 0xD83D, 0xDE00, 100]] : List JStr).map
          (fun s => jsSlice s
            (usedAffixes [[97, 0xD83D, 0xDE00, 100],
                [97, 0xD83D, 0xDE00, 122, 0xD83D, 0xDE00, 100]] [117]).1.length
            (s.length -
              (usedAffixes [[97, 0xD83D, 0xDE00, 100],
                  [97, 0xD83D, 0xDE00, 122, 0xD83D, 0xDE00, 100]] [117]).2.length))
          = [[], [0xDE00, 122, 0xD83D]]
      ∧ wfUTF16 [0xDE00, 122, 0xD83D] = false) := by
  exact ⟨⟨rfl, rfl, rfl⟩, by decide, rfl, rfl, rfl, rfl, rfl⟩

/-- C6 counterexample: the fragment backslash-newline is a 2-character
    backslash escape, which spec 4.4 classifies atomic ("any 2-character
    backslash escape"), but `isAtomic` rejects it: the source tests
    `/^\\.$/` and `.` does not match a line terminator. -/
theorem C6_backslash_newline_not_atomic :
    claimedTwoCharEscape [92, 10] = true ∧ isAtomic [92, 10] = false := by
  exact ⟨rfl, rfl⟩

/-- C9: The escaping layer does NOT preserve the single-letter escapes: the
    control characters form feed, tab, newline, carriage return and vertical
    tab are rendered as hex escapes `\x0C \x09 \x0A \x0D \x0B` by both
    `escapeRegExp` and `escapeCharClass`.  The "preserve common escapes"
    replace (lines 46, 72) scans for a literal backslash followed by a
    letter — a two-unit sequence — and its replacement equals its match, so
    it is an identity and never sees the one-unit control characters, which
    fall through to the hex-escape replace.  This contradicts the source's
    own comment ("preserve common escapes"). -/
theorem C9_control_chars_become_hex :
    escapeRegExp [12] [] = jstr "\\x0C" ∧ escapeRegExp [9] [] = jstr "\\x09"
      ∧ escapeRegExp [10] [] = jstr "\\x0A" ∧ escapeRegExp [13] [] = jstr "\\x0D"
      ∧ escapeRegExp [11] [] = jstr "\\x0B"
      ∧ escapeCharClass [12] [] = jstr "\\x0C" ∧ escapeCharClass [9] [] = jstr "\\x09"
      ∧ escapeCharClass [10] [] = jstr "\\x0A" ∧ escapeCharClass [13] [] = jstr "\\x0D"
      ∧ escapeCharClass [11] [] = jstr "\\x0B" := by
  refine ⟨rfl, rfl, rfl, rfl, rfl, rfl, rfl, rfl, rfl, rfl⟩

/-- C8: The prefix-into-repetition merge never happens.  The guard (line 487)
    requires the middle pattern to start with `(?:`, i.e. with the unit `(`,
    while the quantifier regex of line 489 — written with string-style
    doubled backslashes inside a regex literal — can only match a string
    whose first unit is a backslash; so for every middle pattern starting
    with `(` the match is `null` and the merge branch is dead (first
    conjunct).  Concretely, for the set {abcdefg, ababcdefg, abababcdefg}
    the middle pattern is the counted repetition `(?:ab){0,2}` of the
    escaped prefix `ab`, yet the emitted pattern is `ab(?:ab){0,2}cdefg`
    with the prefix duplicated in front of the repetition, not the merged
    `(?:ab){1,3}cdefg` the spec describes. -/
theorem C8_prefix_merge_never_fires :
    (∀ t : JStr, quantRegexMatch (40 :: t) = none)
      ∧ toRegExp (.arr [.str (jstr "abcdefg"), .str (jstr "ababcdefg"),
            .str (jstr "abababcdefg")]) []
          = .ok (some (jstr "ab(?:ab)" ++ [123] ++ jstr "0,2" ++ [125] ++ jstr "cdefg")) := by
  exact ⟨fun t => rfl, rfl⟩

/-- C4 amended: `toRegExp` throws its type error exactly when the argument is
    neither an array nor `null`/`undefined`, or is an array containing a
    non-string element; `null` and `undefined` yield the trivial empty
    pattern instead of throwing.  Moreover the type error is the only
    exception, but synthesis is NOT total: on the well-typed Unicode-mode
    input `["\uD83Dx", "\uD83Dy"]` (a shared lone leading high surrogate) the
    recursion never terminates — no recursion fuel suffices — because the
    surrogate-trimmed empty prefix sends both strings into a single
    first-character group equal to the original set. -/
theorem C4_error_iff_malformed :
    (∀ (v : JSInput) (flags : JStr),
        toRegExp v flags = .error () ↔ malformedInput v = true)
      ∧ (∀ fuel, buildPattern fuel [[0xD83D, 120], [0xD83D, 121]] (jstr "u") = none) := by
  constructor
  · intro v flags
    cases v with
    | undef => simp [toRegExp, malformedInput]
    | nullV => simp [toRegExp, malformedInput]
    | notArray => simp [toRegExp, malformedInput]
    | arr l =>
      simp only [toRegExp, malformedInput]
      split
      · simp [*]
      · rename_i hany
        split
        · simp [hany]
        · simp [hany]
  · intro fuel
    have ju : jstr "u" = [117] := rfl
    rw [ju]
    induction fuel with
    | zero => rfl
    | succ n ih => exact buildPatternF_loneSurr (buildPattern n) ih

/-- C10: Element multiplicity never affects the output: compiling an array
    concatenated with itself gives exactly the same result as compiling the
    array.  The validation scan, the first-element guard (self-concatenation
    preserves the first element) and the `Set`-based deduplication each
    coincide on `xs ++ xs` and `xs`, and everything after normalization
    depends only on the normalized list. -/
theorem C10_duplication_irrelevant :
    ∀ (l : List JSElem) (flags : JStr),
      toRegExp (.arr (l ++ l)) flags = toRegExp (.arr l) flags := by
  intro l flags
  simp only [toRegExp, List.any_append, Bool.or_self]
  split
  · rfl
  · simp only [List.filterMap_append]
    cases hss : l.filterMap JSElem.getStr with
    | nil => rfl
    | cons a t =>
      rw [jsDedup_append_self (a :: t)]
      simp [List.cons_append]

/-- A string with at most zero code points is empty. -/
theorem codePoints_eq_nil : ∀ (s : JStr), codePoints s = [] → s = []
  | [], _ => rfl
  | [_], h => by simp [codePoints] at h
  | _ :: _ :: _, h => by
    unfold codePoints at h
    split at h <;> simp at h

/-- Spread head of a single-character string is the whole string: when the
    code-point decomposition has exactly one entry, `[...s][0]` equals `s`
    itself, so the character-class step never cuts inside a string. -/
theorem firstCodePoint_of_single (s : JStr) (h : (codePoints s).length = 1) :
    firstCodePoint s = s := by
  match s with
  | [] => simp [codePoints] at h
  | [u] => rfl
  | u :: l :: rest =>
    have e : firstCodePoint (u :: l :: rest)
        = if isHighSurr u && isLowSurr l then [u, l] else [u] := rfl
    unfold codePoints at h
    rw [e]
    split at h
    · rename_i hc
      rw [if_pos hc]
      simp only [List.length_cons, Nat.succ.injEq] at h
      have hrest : rest = [] := codePoints_eq_nil rest (List.length_eq_zero.mp h)
      rw [hrest]
    · rename_i hc
      rw [if_neg hc]
      simp only [List.length_cons, Nat.succ.injEq] at h
      have := codePoints_eq_nil (l :: rest) (List.length_eq_zero.mp h)
      exact absurd this (by simp)

/-- Map a function that fixes every member. -/
theorem map_id_of_mem {α : Type} : ∀ (l : List α) (f : α → α),
    (∀ s ∈ l, f s = s) → l.map f = l := by
  intro l f h
  induction l with
  | nil => rfl
  | cons a t ih =>
    simp only [List.map_cons, h a (by simp)]
    rw [ih (fun s hs => h s (by simp [hs]))]

/-- When the character-class branch fires, every class entry is the whole
    input string (the single-character test of line 737 counts code points,
    so a surrogate pair enters the class intact). -/
theorem charClassStep_whole_chars (strings : List JStr) (flags : JStr) (cls : JStr)
    (h : charClassStep strings flags = some cls) :
    strings.map firstCodePoint = strings := by
  unfold charClassStep at h
  by_cases hall : strings.all (fun s => (codePoints s).length == 1) = true
  · apply map_id_of_mem
    intro s hs
    have h1 := List.all_eq_true.mp hall s hs
    exact firstCodePoint_of_single s (by simpa using h1)
  · rw [if_neg hall] at h
    exact Option.noConfusion h

/-- The surrogate trim alone never yields a prefix ending in a high surrogate
    or a suffix starting with a low one, for well-formed Unicode-mode input;
    the first half of the C5 amended theorem, stated for `trimmedAffixes`. -/
theorem trimmedAffixes_no_bisection : ∀ (strings : List JStr) (flags : JStr),
    flags.contains 117 = true → (∀ s ∈ strings, wfUTF16 s = true) →
    endsHighSurr (trimmedAffixes strings flags).1 = false
      ∧ startsLowSurr (trimmedAffixes strings flags).2 = false := by
  intro strings flags hu hwf
  match strings with
  | [] =>
    unfold trimmedAffixes
    rw [if_pos hu]
    constructor <;> rfl
  | s0 :: rest =>
    have hwf0 : wfUTF16 s0 = true := hwf s0 (List.mem_cons_self _ _)
    unfold trimmedAffixes
    rw [if_pos hu]
    constructor
    · -- the prefix component
      set P := findCommonPrefix (s0 :: rest) with hP
      dsimp only
      split
      · -- trimmed: the last unit of P is a high surrogate
        rename_i hc
        rw [Bool.and_eq_true] at hc
        cases hgl : (P.dropLast).getLast? with
        | none => rw [endsHighSurr, hgl]
        | some x =>
          rw [endsHighSurr_eq _ x hgl]
          cases hhx : isHighSurr x with
          | false => rfl
          | true =>
            exfalso
            have hPne : P ≠ [] := by
              intro hnil
              rw [hnil] at hc
              simp at hc
            obtain ⟨y, hgly⟩ : ∃ y, P.getLast? = some y := by
              cases hgly : P.getLast? with
              | none => exact absurd (List.getLast?_eq_none_iff.mp hgly) hPne
              | some y => exact ⟨y, rfl⟩
            have hdecomp1 : P.dropLast.dropLast ++ [x] = P.dropLast :=
              dropLast_append_of_getLast? _ x hgl
            have hdecomp2 : P.dropLast ++ [y] = P :=
              dropLast_append_of_getLast? _ y hgly
            have hPeq : P.dropLast.dropLast ++ [x, y] = P := by
              rw [← hdecomp2, ← hdecomp1]
              simp
            obtain ⟨tt, htt⟩ := findCommonPrefix_isPrefixOfHead s0 rest
            rw [← hP] at htt
            have hs0 : P.dropLast.dropLast ++ x :: y :: tt = s0 := by
              rw [← htt, ← hPeq]
              simp
            have hlow := wf_high_next_aux (P.dropLast.dropLast.length) (P.dropLast.dropLast)
              (Nat.le_refl _) x y tt (by rw [hs0]; exact hwf0) hhx
            have hhigh : isHighSurr y = true := by
              have hyd : P.getLastD 0 = y := by
                rw [List.getLastD_eq_getLast?, hgly]
                rfl
              rw [← hyd]
              exact hc.2
            exact surr_not_both _ hhigh hlow
      · -- untrimmed: P does not end in a high surrogate
        rename_i hc
        cases hgl : P.getLast? with
        | none => rw [endsHighSurr, hgl]
        | some u =>
          rw [endsHighSurr_eq _ u hgl]
          by_cases hhu : isHighSurr u = true
          · exfalso
            apply hc
            rw [Bool.and_eq_true]
            constructor
            · have : P ≠ [] := by
                intro hnil
                rw [hnil] at hgl
                exact Option.noConfusion hgl
              simpa using List.length_pos.mpr this
            · rw [List.getLastD_eq_getLast?, hgl]
              exact hhu
          · simpa using hhu
    · -- the suffix component
      set S := findCommonSuffix (s0 :: rest) with hS
      dsimp only
      split
      · rename_i hc
        rw [Bool.and_eq_true] at hc
        match hSnil : S with
        | [] => rfl
        | [l0] => rfl
        | l0 :: l1 :: S2 =>
          show startsLowSurr (l1 :: S2) = false
          rw [startsLowSurr_eq (l1 :: S2) l1 rfl]
          cases hl1 : isLowSurr l1 with
          | false => rfl
          | true =>
            exfalso
            obtain ⟨q, hq⟩ := findCommonSuffix_suffix s0 rest
            rw [← hS] at hq
            have hhigh := wf_low_prev_aux q.length q (Nat.le_refl _) l0 l1 S2
              (by rw [hq]; exact hwf0) hl1
            have hlow : isLowSurr l0 = true := by
              simpa using hc.2
            exact surr_not_both _ hhigh hlow
      · rename_i hc
        match hSnil : S with
        | [] => rfl
        | l0 :: S1 =>
          show startsLowSurr (l0 :: S1) = false
          rw [startsLowSurr_eq (l0 :: S1) l0 rfl]
          by_cases hl0 : isLowSurr l0 = true
          · exfalso
            apply hc
            rw [Bool.and_eq_true]
            constructor
            · simp
            · simpa using hl0
          · simpa using hl0


/-- C5 amended: surrogate-pair integrity in Unicode mode, with its exact
    extent.  When the flags contain `u` and every input string is well-formed
    UTF-16: (1) the common affixes after the one-code-unit trim of lines
    430-441 never end in a high surrogate (prefix) or begin with a low
    surrogate (suffix); (2) whenever the trimmed prefix and suffix do not
    overlap the shortest string, the overlap re-cut of lines 450-464 is a
    no-op, so the prefix/suffix split the synthesis actually uses is the
    trimmed pair and never bisects a surrogate pair — with overlap the re-cut
    can bisect even in Unicode mode, see the counterexample; (3) whenever the
    character-class branch fires, every class entry is a whole input
    character (the single-character test counts code points), so no
    character-class boundary bisects a pair.  Without the `u` flag no
    trimming happens at all (see the counterexample). -/
theorem C5_unicode_no_bisection : ∀ (strings : List JStr) (flags : JStr),
    flags.contains 117 = true → (∀ s ∈ strings, wfUTF16 s = true) →
    (endsHighSurr (trimmedAffixes strings flags).1 = false
      ∧ startsLowSurr (trimmedAffixes strings flags).2 = false)
    ∧ ((trimmedAffixes strings flags).1.length + (trimmedAffixes strings flags).2.length
          ≤ listMin (strings.map List.length) →
        usedAffixes strings flags = trimmedAffixes strings flags
          ∧ endsHighSurr (usedAffixes strings flags).1 = false
          ∧ startsLowSurr (usedAffixes strings flags).2 = false)
    ∧ (∀ cls, charClassStep strings flags = some cls →
        strings.map firstCodePoint = strings) := by
  intro strings flags hu hwf
  have htrim := trimmedAffixes_no_bisection strings flags hu hwf
  refine ⟨htrim, ?_, ?_⟩
  · intro hov
    have hused : usedAffixes strings flags = trimmedAffixes strings flags := by
      unfold usedAffixes
      rw [if_neg (by omega)]
    exact ⟨hused, by rw [hused]; exact htrim.1, by rw [hused]; exact htrim.2⟩
  · intro cls h
    exact charClassStep_whole_chars strings flags cls h

/-- C5 witness: the amended theorem applied to the concrete Unicode-mode set
    `{U+1F600, U+1F601}`: the trimmed affixes are empty (the shared high
    surrogate is trimmed away), they do not overlap the shortest string, the
    working affixes equal the trimmed ones, and the character class the set
    compiles to is built from the two whole surrogate pairs. -/
theorem C5_unicode_no_bisection_witness :
    ([117] : JStr).contains 117 = true
      ∧ (∀ s ∈ ([[0xD83D, 0xDE00], [0xD83D, 0xDE01]] : List JStr), wfUTF16 s = true)
      ∧ (trimmedAffixes [[0xD83D, 0xDE00], [0xD83D, 0xDE01]] [117]).1.length
          + (trimmedAffixes [[0xD83D, 0xDE00], [0xD83D, 0xDE01]] [117]).2.length
          ≤ listMin (([[0xD83D, 0xDE00], [0xD83D, 0xDE01]] : List JStr).map List.length)
      ∧ endsHighSurr (trimmedAffixes [[0xD83D, 0xDE00], [0xD83D, 0xDE01]] [117]).1 = false
      ∧ startsLowSurr (trimmedAffixes [[0xD83D, 0xDE00], [0xD83D, 0xDE01]] [117]).2 = false
      ∧ usedAffixes [[0xD83D, 0xDE00], [0xD83D, 0xDE01]] [117]
          = trimmedAffixes [[0xD83D, 0xDE00], [0xD83D, 0xDE01]] [117]
      ∧ charClassStep [[0xD83D, 0xDE00], [0xD83D, 0xDE01]] [117]
          = some ([91, 92, 117, 123, 49, 70, 54, 48, 48, 125,
                   92, 117, 123, 49, 70, 54, 48, 49, 125, 93])
      ∧ ([[0xD83D, 0xDE00], [0xD83D, 0xDE01]] : List JStr).map firstCodePoint
          = [[0xD83D, 0xDE00], [0xD83D, 0xDE01]] :=
  ⟨by decide, by decide, by decide,
   (C5_unicode_no_bisection [[0xD83D, 0xDE00], [0xD83D, 0xDE01]] [117]
     (by decide) (by decide)).1.1,
   (C5_unicode_no_bisection [[0xD83D, 0xDE00], [0xD83D, 0xDE01]] [117]
     (by decide) (by decide)).1.2,
   ((C5_unicode_no_bisection [[0xD83D, 0xDE00], [0xD83D, 0xDE01]] [117]
     (by decide) (by decide)).2.1 (by decide)).1,
   by decide,
   (C5_unicode_no_bisection [[0xD83D, 0xDE00], [0xD83D, 0xDE01]] [117]
     (by decide) (by decide)).2.2
     [91, 92, 117, 123, 49, 70, 54, 48, 48, 125,
      92, 117, 123, 49, 70, 54, 48, 49, 125, 93] (by decide)⟩

/-- Bridge: the first source check equals spec shape 1. -/
theorem check1_eq (p : JStr) :
    (p.length == 1 && !(p.any (· ∈ atomicSpecials))) = shapeLiteral p := by
  match p with
  | [] => rfl
  | [c] => simp [shapeLiteral, List.any_cons]
  | a :: b :: t => simp [shapeLiteral]

/-- Bridge: the second source check equals spec shape 2. -/
theorem check2_eq (p : JStr) :
    ([92, 117, 123].isPrefixOf p && p.getLast? == some 125 && !(p.contains 124))
      = shapeBraceU p := by
  unfold shapeBraceU
  split
  next rest =>
    cases rest with
    | nil => decide
    | cons r rr =>
      simp [List.isPrefixOf, List.getLast?_cons_cons, List.contains_cons]
  next hno =>
    have hpre : [92, 117, 123].isPrefixOf p = false := by
      cases hp : [92, 117, 123].isPrefixOf p with
      | false => rfl
      | true =>
        obtain ⟨t, rfl⟩ := List.isPrefixOf_iff_prefix.mp hp
        exact absurd rfl (hno t)
    rw [hpre]
    rfl

/-- Bridge: the third source check (the `/^\\u[\dA-Fa-f]{4}$/` test) equals
    spec shape 3. -/
theorem check3_eq (p : JStr) :
    (match p with
     | [92, 117, a, b, c, d] => isHexU a && isHexU b && isHexU c && isHexU d
     | _ => false) = shapeU4 p := by
  split
  next a b c d =>
    simp [shapeU4, List.all_cons, Bool.and_assoc]
  next hno =>
    unfold shapeU4
    split
    next ds =>
      match ds with
      | [] => rfl
      | [a] => rfl
      | [a, b] => rfl
      | [a, b, c] => rfl
      | [a, b, c, d] => exact absurd rfl (hno a b c d)
      | a :: b :: c :: d :: e :: tail =>
        have hlen : (List.length (a :: b :: c :: d :: e :: tail) == 4) = false := by
          simp
        rw [hlen]
        rfl
    next => rfl

/-- Bridge: the fourth source check (the `/^\\.$/` test) equals the amended
    spec shape 4. -/
theorem check4_eq (p : JStr) :
    (match p with
     | [92, c] => !(c ∈ [10, 13, 0x2028, 0x2029])
     | _ => false) = shapeEsc2 p := by
  split
  next c => simp [shapeEsc2]
  next hno =>
    unfold shapeEsc2
    split
    next c => exact absurd rfl (hno c)
    next => rfl

/-- Bridge: the fifth source check (the `/^\[[^\]]+\]$/` test) equals spec
    shape 5. -/
theorem check5_eq (p : JStr) :
    (p.head? == some 91 && p.getLast? == some 93 && decide (p.length ≥ 3)
        && (p.drop 1).dropLast.all (· != 93)) = shapeClass p := by
  unfold shapeClass
  split
  next rest =>
    cases rest with
    | nil => decide
    | cons r rr =>
      cases rr with
      | nil => simp
      | cons r2 rr2 =>
        have hlen : decide ((91 :: r :: r2 :: rr2 : JStr).length ≥ 3) = true := by
          simp only [List.length_cons, decide_eq_true_eq]
          omega
        simp only [List.head?_cons, List.getLast?_cons_cons, List.drop_succ_cons,
          List.drop_zero, List.dropLast_cons₂, hlen]
        simp [Bool.and_assoc, Bool.and_comm, Bool.and_left_comm]
  next hno =>
    cases p with
    | nil => rfl
    | cons u t =>
      by_cases hu : u = 91
      · subst hu
        exact absurd rfl (hno t)
      · have hhd : ((u :: t : JStr).head? == some 91) = false := by
          simp only [List.head?_cons, Option.some.injEq, beq_iff_eq]
          simpa using hu
        rw [hhd]
        rfl

/-- Bridge: the sixth source check (parenthesis guard plus balanced scan)
    equals spec shape 6. -/
theorem check6_eq (p : JStr) :
    (if ([40, 63, 58].isPrefixOf p || [40].isPrefixOf p) = true then parenScan p 0 else false)
      = shapeGroup p := by
  unfold shapeGroup
  cases p with
  | nil => rfl
  | cons u t =>
    simp only [List.head?_cons]
    by_cases hu : u = 40
    · subst hu
      have hcond : ([40, 63, 58].isPrefixOf (40 :: t) || [40].isPrefixOf (40 :: t)) = true := by
        simp [List.isPrefixOf]
      rw [hcond]
      simp
    · have hne : ((40 : Nat) == u) = false := by
        simp only [beq_eq_false_iff_ne, ne_eq]
        exact fun h => hu h.symm
      have hcond : ([40, 63, 58].isPrefixOf (u :: t) || [40].isPrefixOf (u :: t)) = false := by
        simp [List.isPrefixOf, hne]
      rw [hcond]
      rw [if_neg (by simp : ¬(false = true))]
      split
      next h => exact absurd h (by simpa using hu)
      next => rfl

/-- C6 amended: `isAtomic` accepts exactly the six shapes of spec 4.4, with
    shape 4 amended to exclude a 2-character backslash escape of a line
    terminator (`\n`, `\r`, U+2028, U+2029), which the source's `/^\\.$/`
    test rejects; see the counterexample for the unamended claim. -/
theorem C6_isAtomic_matches_amended_shapes : ∀ p, isAtomic p = isAtomicShapes p := by
  intro p
  unfold isAtomic isAtomicShapes
  rw [check1_eq, check2_eq, check3_eq, check4_eq, check5_eq, check6_eq]
  cases shapeLiteral p <;> cases shapeBraceU p <;> cases shapeU4 p <;> cases shapeEsc2 p <;>
    cases shapeClass p <;> simp

/-- The fueled JS gcd computes the mathematical gcd. -/
theorem jsGcdAux_eq_gcd : ∀ (fuel a b : Nat), b < fuel → jsGcdAux fuel a b = Nat.gcd a b := by
  intro fuel
  induction fuel with
  | zero => intro a b h; exact absurd h (Nat.not_lt_zero b)
  | succ n ih =>
    intro a b h
    unfold jsGcdAux
    by_cases hb : b = 0
    · subst hb
      simp [Nat.gcd_zero_right]
    · rw [if_neg (by simpa using hb)]
      have hmod : a % b < n := Nat.lt_of_lt_of_le (Nat.mod_lt a (Nat.pos_of_ne_zero hb))
        (Nat.lt_succ_iff.mp h)
      rw [ih b (a % b) hmod]
      rw [Nat.gcd_comm b (a % b), ← Nat.gcd_rec b a, Nat.gcd_comm b a]

/-- JS `gcd` equals `Nat.gcd`. -/
theorem jsGcd_eq_gcd (a b : Nat) : jsGcd a b = Nat.gcd a b :=
  jsGcdAux_eq_gcd (b + 1) a b (Nat.lt_succ_self b)

/-- The folded gcd divides the seed and every list element. -/
theorem foldl_jsGcd_dvd : ∀ (l : List Nat) (a : Nat),
    (l.foldl jsGcd a) ∣ a ∧ ∀ x ∈ l, (l.foldl jsGcd a) ∣ x := by
  intro l
  induction l with
  | nil => intro a; exact ⟨dvd_refl a, fun x hx => absurd hx (List.not_mem_nil x)⟩
  | cons b t ih =>
    intro a
    have h := ih (jsGcd a b)
    rw [List.foldl_cons]
    have hga : (t.foldl jsGcd (jsGcd a b)) ∣ a :=
      h.1.trans (by rw [jsGcd_eq_gcd]; exact Nat.gcd_dvd_left a b)
    have hgb : (t.foldl jsGcd (jsGcd a b)) ∣ b :=
      h.1.trans (by rw [jsGcd_eq_gcd]; exact Nat.gcd_dvd_right a b)
    refine ⟨hga, fun x hx => ?_⟩
    rcases List.mem_cons.mp hx with rfl | hxt
    · exact hgb
    · exact h.2 x hxt

/-- A common divisor of seed and elements divides the folded gcd. -/
theorem dvd_foldl_jsGcd : ∀ (l : List Nat) (a d : Nat),
    d ∣ a → (∀ x ∈ l, d ∣ x) → d ∣ l.foldl jsGcd a := by
  intro l
  induction l with
  | nil => intro a d ha _; exact ha
  | cons b t ih =>
    intro a d ha h
    rw [List.foldl_cons]
    refine ih (jsGcd a b) d ?_ (fun x hx => h x (List.mem_cons_of_mem b hx))
    rw [jsGcd_eq_gcd]
    exact Nat.dvd_gcd ha (h b (List.mem_cons_self b t))

/-- The folded gcd of a positive seed is positive. -/
theorem foldl_jsGcd_pos (l : List Nat) (a : Nat) (ha : 0 < a) : 0 < l.foldl jsGcd a := by
  rcases Nat.eq_zero_or_pos (l.foldl jsGcd a) with h0 | hpos
  · exfalso
    have := (foldl_jsGcd_dvd l a).1
    rw [h0] at this
    have := Nat.eq_zero_of_zero_dvd this
    omega
  · exact hpos

/-- Zero repetitions. -/
theorem jsRepeat_zero (T : JStr) : jsRepeat T 0 = [] := rfl

/-- Unfolding one repetition. -/
theorem jsRepeat_succ (T : JStr) (n : Nat) : jsRepeat T (n + 1) = T ++ jsRepeat T n := by
  simp [jsRepeat, List.replicate_succ]

/-- Length of a repetition. -/
theorem jsRepeat_length (T : JStr) : ∀ n, (jsRepeat T n).length = n * T.length := by
  intro n
  induction n with
  | zero => simp [jsRepeat_zero]
  | succ m ih =>
    rw [jsRepeat_succ, List.length_append, ih]
    ring

/-- Repetitions add. -/
theorem jsRepeat_add (T : JStr) : ∀ m n, jsRepeat T (m + n) = jsRepeat T m ++ jsRepeat T n := by
  intro m
  induction m with
  | zero => intro n; simp [jsRepeat_zero]
  | succ k ih =>
    intro n
    rw [jsRepeat_succ, Nat.succ_add, jsRepeat_succ, ih, List.append_assoc]

/-- A repetition of a repetition is a repetition. -/
theorem jsRepeat_repeat (T : JStr) : ∀ (m k : Nat),
    jsRepeat (jsRepeat T m) k = jsRepeat T (m * k) := by
  intro m k
  induction k with
  | zero => simp [jsRepeat_zero]
  | succ j ih =>
    rw [jsRepeat_succ, ih, Nat.mul_succ, Nat.add_comm, jsRepeat_add]

/-- Taking a whole number of copies from a repetition. -/
theorem jsRepeat_take (T : JStr) : ∀ (m k : Nat), m ≤ k →
    (jsRepeat T k).take (m * T.length) = jsRepeat T m := by
  intro m k hmk
  have hk : k = m + (k - m) := by omega
  rw [hk, jsRepeat_add]
  have : m * T.length = (jsRepeat T m).length := (jsRepeat_length T m).symm
  rw [this, List.take_left]


/-- C7: the global repetition fold.  Whenever a set of at least two strings
    consists entirely of (nonzero) powers of a fixed nonempty string `T`, the
    synthesizer collapses it in one step to `sub{min,max}` — with `sub` the
    leading substring of gcd length (itself a power of `T`), quantifier `?`
    for the range 0-1, `{n}` for a constant count, and a `(?:...)` wrapper
    exactly when the gcd exceeds one.  The earlier branches (singleton,
    cartesian, both guarded by an empty-string member that cannot occur here)
    are proved not to fire. -/
theorem C7_global_repetition_fold (fuel : Nat) (strings : List JStr) (flags T : JStr)
    (h2 : 2 ≤ strings.length) (hT : T ≠ [])
    (hrep : ∀ s ∈ strings, ∃ k, 1 ≤ k ∧ s = jsRepeat T k) :
    buildPattern (fuel + 1) strings flags
      = some (
          let lens := strings.map List.length
          let g := lens.foldl jsGcd (lens.headD 0)
          let sub := (strings.headD []).take g
          let reps := stableSort (fun a b => a ≤ b) (strings.map (fun s => s.length / g))
          let minRep := reps.headD 0
          let maxRep := reps.getLastD 0
          let quant := if minRep == 0 && maxRep == 1 then ([63] : JStr)
                       else if minRep == maxRep then braceCount minRep
                       else braceRange minRep maxRep
          if g == 1 then escapeRegExp sub flags ++ quant
          else wrapGroup (escapeRegExp sub flags) ++ quant) := by
  cases strings with
  | nil => simp at h2
  | cons s0 rest =>
  have hTpos : 0 < T.length := List.length_pos.mpr hT
  have hlen_pos : ∀ s ∈ s0 :: rest, 0 < s.length := by
    intro s hs
    obtain ⟨k, hk, rfl⟩ := hrep s hs
    rw [jsRepeat_length]
    exact Nat.mul_pos (by omega) hTpos
  have hne_each : ∀ s ∈ s0 :: rest, s ≠ [] := by
    intro s hs h0
    have := hlen_pos s hs
    rw [h0] at this
    simp at this
  have hcont : (s0 :: rest).contains [] = false := by
    cases hcc : (s0 :: rest).contains [] with
    | false => rfl
    | true =>
      exfalso
      rcases (by simpa [List.contains] using hcc : s0 = [] ∨ ([] : JStr) ∈ rest) with h | h
      · exact hne_each s0 (List.mem_cons_self s0 rest) h
      · exact hne_each [] (List.mem_cons_of_mem s0 h) rfl
  have hfilter : (s0 :: rest).filter (fun s => !s.isEmpty) = s0 :: rest := by
    rw [List.filter_eq_self]
    intro s hs
    simp only [Bool.not_eq_true']
    cases he : s.isEmpty with
    | false => rfl
    | true => exact absurd (List.isEmpty_iff.mp he) (hne_each s hs)
  -- the repetition branch fires and yields the fold
  have hrepB : repetitionBranch (s0 :: rest) flags
      = some (
          let lens := (s0 :: rest).map List.length
          let g := lens.foldl jsGcd (lens.headD 0)
          let sub := ((s0 :: rest).headD []).take g
          let reps := stableSort (fun a b => a ≤ b) ((s0 :: rest).map (fun s => s.length / g))
          let minRep := reps.headD 0
          let maxRep := reps.getLastD 0
          let quant := if minRep == 0 && maxRep == 1 then ([63] : JStr)
                       else if minRep == maxRep then braceCount minRep
                       else braceRange minRep maxRep
          if g == 1 then escapeRegExp sub flags ++ quant
          else wrapGroup (escapeRegExp sub flags) ++ quant) := by
    unfold repetitionBranch
    rw [hfilter]
    rw [if_neg (by simp : ¬((s0 :: rest).isEmpty = true))]
    set lens := (s0 :: rest).map List.length with hlens
    set g := lens.foldl jsGcd (lens.headD 0) with hgdef
    have hheadD : lens.headD 0 = s0.length := by rw [hlens]; rfl
    have hs0mem : s0 ∈ s0 :: rest := List.mem_cons_self s0 rest
    obtain ⟨k0, hk01, hs0eq⟩ := hrep s0 hs0mem
    have hgdvd_all : ∀ s ∈ s0 :: rest, g ∣ s.length := by
      intro s hs
      exact (foldl_jsGcd_dvd lens (lens.headD 0)).2 s.length
        (List.mem_map_of_mem List.length hs)
    have hgpos : 0 < g := by
      apply foldl_jsGcd_pos
      rw [hheadD]
      exact hlen_pos s0 hs0mem
    have hTg : T.length ∣ g := by
      apply dvd_foldl_jsGcd
      · rw [hheadD, hs0eq, jsRepeat_length]
        exact dvd_mul_left T.length k0
      · intro x hx
        obtain ⟨s, hs, rfl⟩ := List.mem_map.mp hx
        obtain ⟨k, hk, rfl⟩ := hrep s hs
        rw [jsRepeat_length]
        exact dvd_mul_left T.length k
    set m := g / T.length with hmdef
    have hgm : m * T.length = g := Nat.div_mul_cancel hTg
    have hm_pos : 0 < m := by
      rcases Nat.eq_zero_or_pos m with h0 | hp
    -- m = 0 would force g = 0
      · rw [h0] at hgm
        simp at hgm
        omega
      · exact hp
    have hmdvd : ∀ s ∈ s0 :: rest, ∀ k, s = jsRepeat T k → m ∣ k := by
      intro s hs k hskeq
      have := hgdvd_all s hs
      rw [hskeq, jsRepeat_length, ← hgm] at this
      exact (Nat.mul_dvd_mul_iff_right hTpos).mp this
    have hm_le_k0 : m ≤ k0 := by
      have hmk0 : m ∣ k0 := hmdvd s0 hs0mem k0 hs0eq
      exact Nat.le_of_dvd (by omega) hmk0
    have hsub : s0.take g = jsRepeat T m := by
      rw [hs0eq, ← hgm]
      exact jsRepeat_take T m k0 hm_le_k0
    have hall : ((s0 :: rest).all
        (fun s => s == jsRepeat (((s0 :: rest).headD []).take g) (s.length / g))) = true := by
      rw [List.all_eq_true]
      intro s hs
      rw [beq_iff_eq]
      have hsubh : ((s0 :: rest).headD []).take g = jsRepeat T m := by
        simpa using hsub
      obtain ⟨k, hk1, rfl⟩ := hrep s hs
      rw [hsubh, jsRepeat_repeat, jsRepeat_length]
      congr 1
      have hkm : m ∣ k := hmdvd _ hs k rfl
      rw [← hgm, Nat.mul_div_mul_right k m hTpos]
      exact (Nat.mul_div_cancel' hkm).symm
    rw [if_pos hgpos, if_pos hall, hcont]
    rfl
  -- now thread the branch through buildPatternF
  show buildPatternF (buildPattern fuel) (s0 :: rest) flags = _
  have hlen1 : ((s0 :: rest).length == 1) = false := by
    simp only [List.length_cons] at h2
    simp only [List.length_cons, beq_eq_false_iff_ne, ne_eq]
    omega
  unfold buildPatternF
  rw [hlen1, hcont, hrepB]
  simp


/-- C7 witness: at the spec's own scenario `["ab","abab","ababab"]` the fold
    theorem yields the pattern `(?:ab){1,3}`. -/
theorem C7_global_repetition_fold_witness :
    2 ≤ ([jstr "ab", jstr "abab", jstr "ababab"] : List JStr).length
      ∧ jstr "ab" ≠ []
      ∧ buildPattern 1 [jstr "ab", jstr "abab", jstr "ababab"] []
          = some (wrapGroup (jstr "ab") ++ [123] ++ jstr "1,3" ++ [125])
      ∧ toRegExp (.arr [.str (jstr "ab"), .str (jstr "abab"), .str (jstr "ababab")]) []
          = .ok (some (wrapGroup (jstr "ab") ++ [123] ++ jstr "1,3" ++ [125])) := by
  have hrep : ∀ s ∈ ([jstr "ab", jstr "abab", jstr "ababab"] : List JStr),
      ∃ k, 1 ≤ k ∧ s = jsRepeat (jstr "ab") k := by
    intro s hs
    simp only [List.mem_cons, List.not_mem_nil, or_false] at hs
    rcases hs with rfl | rfl | rfl
    · exact ⟨1, by decide, by decide⟩
    · exact ⟨2, by decide, by decide⟩
    · exact ⟨3, by decide, by decide⟩
  have h := C7_global_repetition_fold 0 [jstr "ab", jstr "abab", jstr "ababab"] []
    (jstr "ab") (by decide) (by decide) hrep
  exact ⟨by decide, by decide, h.trans (by rfl), rfl⟩

end RukoRegex








